import Mathlib

/-!
# Verification of the freud spatial neighbor-query engine

Shallow embedding of the neighbor-query core of the freud repository:
the `NeighborBond` value type (NeighborBond.h), the link-cell build
(`LinkCell::updateInternal`, `LinkCell::computeDimensions`,
`LinkCell::computeCellList`), the per-point query dispatch
(`LinkCell::querySingle`), the ball and k-nearest query iterators
(`LinkCellQueryBallIterator::next`, `LinkCellQueryIterator::next`) and the
ball-mode parallel builder (`LinkCell::compute`), all from LinkCell.cc.

Embedding conventions:
* machine `float` values are represented by exact rationals `ℚ`;
* Euclidean distances are represented by their squares (`rsq`): the source
  stores `sqrt(rsq)` in bonds and only ever compares distances, and
  `Real.sqrt` is strictly monotone on nonnegatives, so every comparison
  `dist₁ < dist₂` of the source is `rsq₁ < rsq₂` here, and a comparison
  `dist < bound` against a nonnegative shell bound is `rsq < bound ^ 2`;
* `unsigned int` indices are `ℕ`;
* the TBB-parallel loops of `LinkCell::compute` are embedded by the
  equivalent sequential iteration (the spec's Collect phase is
  thread-independent, each query point contributing its own bonds);
* geometry that lives in headers absent from the source tree (Box.h,
  LinkCell.h, NeighborQuery.h) is either carried as abstract data in the
  query environment (wrapped squared distances, cell membership) or is
  explicitly marked `Modelled from the spec:`.
-/

namespace Freud

/-! ## NeighborBond (NeighborBond.h)

The value type for one directed neighbor pair. Field-for-field from the
source: `query_point_idx`, `point_idx`, `distance`, `weight`, `vector`.
Floats are embedded as `ℚ`, the displacement vector as `ℚ × ℚ × ℚ`. -/

structure NeighborBond where
  query_point_idx : ℕ
  point_idx : ℕ
  distance : ℚ
  weight : ℚ
  vector : ℚ × ℚ × ℚ
deriving DecidableEq

namespace NeighborBond

/-- `NeighborBond::operator==`: compares `query_point_idx`, `point_idx`,
`distance` and `vector` — the `weight` field is not examined. -/
def beq (a b : NeighborBond) : Bool :=
  decide (a.query_point_idx = b.query_point_idx) &&
    decide (a.point_idx = b.point_idx) &&
    decide (a.distance = b.distance) &&
    decide (a.vector = b.vector)

/-- `NeighborBond::operator!=`: negation of `operator==`. -/
def bneq (a b : NeighborBond) : Bool := !(beq a b)

/-- `NeighborBond::operator<`: the default comparator, by `distance` alone. -/
def ltDefault (a n : NeighborBond) : Bool := decide (a.distance < n.distance)

/-- `NeighborBond::less_as_tuple`: compare `query_point_idx`, then
`point_idx`, then `weight`, then `distance`, each tested for inequality
first exactly as in the source. -/
def less_as_tuple (a n : NeighborBond) : Bool :=
  if a.query_point_idx ≠ n.query_point_idx then
    decide (a.query_point_idx < n.query_point_idx)
  else if a.point_idx ≠ n.point_idx then
    decide (a.point_idx < n.point_idx)
  else if a.weight ≠ n.weight then
    decide (a.weight < n.weight)
  else
    decide (a.distance < n.distance)

/-- `NeighborBond::less_id_ref_weight`: compare `query_point_idx`, then
`point_idx`, then `weight`. -/
def less_id_ref_weight (a n : NeighborBond) : Bool :=
  if a.query_point_idx ≠ n.query_point_idx then
    decide (a.query_point_idx < n.query_point_idx)
  else if a.point_idx ≠ n.point_idx then
    decide (a.point_idx < n.point_idx)
  else
    decide (a.weight < n.weight)

/-- The strict lexicographic order on the tuple
`(query_point_idx, point_idx, weight, distance)`, written out directly;
used to compare `less_as_tuple` against the spec's description. -/
def tupleLex (a n : NeighborBond) : Prop :=
  a.query_point_idx < n.query_point_idx ∨
    (a.query_point_idx = n.query_point_idx ∧
      (a.point_idx < n.point_idx ∨
        (a.point_idx = n.point_idx ∧
          (a.weight < n.weight ∨
            (a.weight = n.weight ∧ a.distance < n.distance)))))

end NeighborBond

/-! ## Link-cell build (LinkCell.cc)

`LinkCell::updateInternal` / `computeDimensions` / `computeCellList` for a
freshly constructed `LinkCell` (the constructor runs `updateInternal` with
`m_cell_width = 0` and `m_box` the default box, then `computeCellList`).

The box is carried as exactly the data `updateInternal` reads from it:
its nearest-plane distances `(npd.x, npd.y, npd.z)` and the 2D flag.
`Box::getNearestPlaneDistance` itself lives in Box.h, which is not in the
source tree; per the spec (§4.1) it is the minimum perpendicular distance
between opposing box faces, and the default-constructed box has zero
lengths, hence zero nearest-plane distances (a 2D box likewise has zero
extent, hence zero plane distance, along z). -/

structure BoxData where
  npdx : ℚ
  npdy : ℚ
  npdz : ℚ
  is2D : Bool
deriving DecidableEq

/-- The default-constructed `box::Box()`: zero lengths (hence zero
nearest-plane distances), 3D. `box != box::Box()` is `box ≠ nullBox`. -/
def nullBox : BoxData := ⟨0, 0, 0, false⟩

/-- `LinkCell::computeDimensions`: per-axis cell counts
`(unsigned int)(L / cell_width)` (truncation of a nonnegative float is
`Nat.floor`), `z` forced to 1 in 2D, and every axis clamped up to 1. -/
def computeDimensions (box : BoxData) (cell_width : ℚ) : ℕ × ℕ × ℕ :=
  let dx := ⌊box.npdx / cell_width⌋₊
  let dy := ⌊box.npdy / cell_width⌋₊
  let dz := if box.is2D then 1 else ⌊box.npdz / cell_width⌋₊
  (max dx 1, max dy 1, max dz 1)

inductive BuildError where
  | invalidCellWidth   -- "Cannot generate a cell list where cell_width is larger than half the box."
  | noCells            -- "At least one cell must be present."
  | emptyPointSet      -- "Cannot generate a cell list of 0 particles."
deriving DecidableEq

instance {α β : Type} [DecidableEq α] [DecidableEq β] :
    DecidableEq (Except α β) := fun a b =>
  match a, b with
  | .error x, .error y =>
    if h : x = y then isTrue (by rw [h]) else
      isFalse (by intro hc; cases hc; exact h rfl)
  | .error _, .ok _ => isFalse (by intro hc; cases hc)
  | .ok _, .error _ => isFalse (by intro hc; cases hc)
  | .ok x, .ok y =>
    if h : x = y then isTrue (by rw [h]) else
      isFalse (by intro hc; cases hc; exact h rfl)

/-- `LinkCell::updateInternal` run from the freshly constructed state
(`m_cell_width = 0`, `m_box = Box()`, `m_celldim = (0,0,0)`): the outer
cache guard compares the requested width and box to those stored values,
then a non-null box is checked for `cell_width * 2 > nearest_plane_distance`
on x, y, and (in 3D only) z, the 2D z-dimension is forced to 1, and the
resulting cell count must be at least 1. -/
def updateInternalFresh (box : BoxData) (cell_width : ℚ) :
    Except BuildError (ℕ × ℕ × ℕ) :=
  if cell_width = 0 ∧ box = nullBox then
    .ok (0, 0, 0)  -- cache guard: nothing changed from the initial state
  else
    let celldim := computeDimensions box cell_width
    if box ≠ nullBox ∧
        (cell_width * 2 > box.npdx ∨ cell_width * 2 > box.npdy ∨
          (¬box.is2D ∧ cell_width * 2 > box.npdz)) then
      .error .invalidCellWidth
    else
      let celldim := if box ≠ nullBox ∧ box.is2D then
        (celldim.1, celldim.2.1, 1) else celldim
      if celldim.1 * celldim.2.1 * celldim.2.2 < 1 then
        .error .noCells
      else
        .ok celldim

/-- The point-loading constructor
`LinkCell(box, cell_width, points, n_points)`: `updateInternal` then
`computeCellList`, which rejects an empty point set before touching the
cells. Only the head of the cell list matters to the claims here, so the
result is the cell dimensions. -/
def buildLinkCell (box : BoxData) (cell_width : ℚ) (n_points : ℕ) :
    Except BuildError (ℕ × ℕ × ℕ) :=
  match updateInternalFresh box cell_width with
  | .error e => .error e
  | .ok dims =>

    -- computeCellList: updateBox(box) is a no-op here (same box, same
    -- width as just set), then the n_points == 0 check.
    if n_points = 0 then .error .emptyPointSet else .ok dims

/-! ## Query dispatch (`LinkCell::querySingle`) -/

/-- `QueryType` from NeighborQuery.h as exported in the bindings:
`none`, `ball`, `nearest`. -/
inductive QueryType where
  | none
  | ball
  | nearest
deriving DecidableEq

/-- The query-argument record (the fields `querySingle` consults). -/
structure QueryArgsData where
  mode : QueryType
  num_neighbors : ℕ
  r_max : ℚ
  exclude_ii : Bool

/-- Modelled from the spec: `NeighborQuery::validateQueryArgs` lives in
NeighborQuery.h, which is not in the source tree; the spec describes no
rewriting of an explicitly supplied mode value, so validation leaves the
arguments unchanged. -/
def validateQueryArgs (args : QueryArgsData) : QueryArgsData := args

inductive QueryError where
  | invalidQueryMode  -- "Invalid query mode provided to generic query function."
deriving DecidableEq

/-- The two per-point iterator kinds `querySingle` can construct. -/
inductive PerPointIteratorKind where
  | ballIterator
  | nearestIterator
deriving DecidableEq

/-- `LinkCell::querySingle`: validate, then dispatch on `args.mode` —
`ball` and `nearest` construct their iterators, anything else throws. -/
def querySingle (args : QueryArgsData) :
    Except QueryError PerPointIteratorKind :=
  let args := validateQueryArgs args
  if args.mode = .ball then .ok .ballIterator
  else if args.mode = .nearest then .ok .nearestIterator
  else .error .invalidQueryMode

/-! ## Cell shells (`IteratorCellShell`, LinkCell.h)

Modelled from the spec: `IteratorCellShell` lives in LinkCell.h, which is
not in the source tree. Per the spec's glossary a shell is "the set of
grid cells at a given Chebyshev distance from a point's home cell", the
iterator walks shell 0, then shell 1, … (z fixed to 0 in 2D), and
`getRange()` is the index of the shell currently being enumerated. The
order of offsets inside one shell is left as a fixed enumeration; nothing
proved below depends on it. -/

/-- All integer offsets `-r … r` along one axis. -/
def axisRange (r : ℕ) : List ℤ :=
  (List.range (2 * r + 1)).map (fun i : ℕ => (i : ℤ) - (r : ℤ))

/-- The filled cube of offsets of Chebyshev norm at most `r`
(z fixed to 0 in 2D). -/
def cube (is2D : Bool) (r : ℕ) : List (ℤ × ℤ × ℤ) :=
  (axisRange r).flatMap fun x =>
    (axisRange r).flatMap fun y =>
      (if is2D then [(0 : ℤ)] else axisRange r).map fun z => (x, y, z)

/-- Chebyshev norm of a cell offset. -/
def cheb (v : ℤ × ℤ × ℤ) : ℕ := max v.1.natAbs (max v.2.1.natAbs v.2.2.natAbs)

/-- The cell offsets making up shell `r`: Chebyshev norm exactly `r`. -/
def shellOffsets (is2D : Bool) (r : ℕ) : List (ℤ × ℤ × ℤ) :=
  (cube is2D r).filter fun v => cheb v = r

/-- Number of offsets in shell `r`. -/
def offsLen (is2D : Bool) (r : ℕ) : ℕ := (shellOffsets is2D r).length

/-- Total number of offsets in shells `a … R` (zero if `a > R`);
bounds the number of `operator++` steps before the walker leaves
shell `R`. -/
def shellsFrom (is2D : Bool) (R a : ℕ) : ℕ :=
  ((List.range (R + 1 - a)).map (fun i : ℕ => offsLen is2D (a + i))).sum

/-- The state of `IteratorCellShell`: the shell being enumerated
(`getRange()`) and how many of its offsets have been consumed. -/
structure ShellPos where
  range : ℕ
  skipped : ℕ
deriving DecidableEq

/-- The offset `operator*` currently points at. -/
def ShellPos.cur (is2D : Bool) (p : ShellPos) : ℤ × ℤ × ℤ :=
  ((shellOffsets is2D p.range).drop p.skipped).headD (0, 0, 0)

/-- `operator++`: the next offset of the current shell, or the first offset
of the next shell once the current one is exhausted. -/
def ShellPos.inc (is2D : Bool) (p : ShellPos) : ShellPos :=
  if p.skipped + 1 < offsLen is2D p.range then ⟨p.range, p.skipped + 1⟩
  else ⟨p.range + 1, 0⟩

/-- Offsets remaining before the walker leaves shell `R`
(`skipped` clamped into the shell so the measure is monotone for every
state, reachable or not). -/
def shellMeasure (is2D : Bool) (R : ℕ) (p : ShellPos) : ℕ :=
  shellsFrom is2D R p.range - min p.skipped (offsLen is2D p.range - 1)

/-! ## The per-point query environment

Everything the two `next()` functions of LinkCell.cc read from the
`LinkCell`, the box and the query arguments, with the geometry carried as
data: `rsq j` is the squared minimum-image distance
`dot(wrap(points[j] - query_point))` (Box.h is not in the source tree),
`pointCell j` is `getCell(points[j])`, and `cellAt o` is
`getCellIndex(point_cell + o)`, the (periodically wrapped) cell id of the
query point's home cell coordinate displaced by a shell offset. -/

structure QEnv where
  n : ℕ                      -- number of points in the cell list
  qidx : ℕ                   -- m_query_point_idx
  exclude_ii : Bool          -- m_exclude_ii
  cell_width : ℚ             -- LinkCell::getCellWidth()
  r : ℚ                      -- m_r, the ball r_max
  num_neighbors : ℕ          -- m_num_neighbors, the k of k-nearest
  extra : ℕ                  -- m_extra_search_width (ball iterator)
  min_plane : ℚ              -- min component of getNearestPlaneDistance()
  is2D : Bool
  pointCell : ℕ → ℕ          -- LinkCell::getCell(points[j])
  cellAt : ℤ × ℤ × ℤ → ℕ     -- getCellIndex(point_cell + offset)
  rsq : ℕ → ℚ                -- squared wrapped distance query → point j

/-- The members of cell `c` in the order `IteratorLinkCell` yields them:
`computeCellList` head-inserts points from `n-1` down to `0`, so the
chain of cell `c` lists its members in increasing index order. -/
def QEnv.contents (env : QEnv) (c : ℕ) : List ℕ :=
  (List.range env.n).filter fun j => env.pointCell j = c

/-- One directed bond as produced by the query iterators:
`NeighborBond(query_point_idx, j, sqrt(rsq))`, with the distance
represented by its square. -/
structure QBond where
  query_point_idx : ℕ
  point_idx : ℕ
  rsq : ℚ
deriving DecidableEq

/-! ## The ball iterator (`LinkCellQueryBallIterator::next`) -/

/-- The ball iterator's shell cutoff:
`(m_neigh_cell_iter.getRange() - m_extra_search_width) * cell_width > m_r`
(the subtraction over `ℤ`, as every reachable check has `range ≥ 1` and
`m_extra_search_width ∈ {0, 1}`, where the unsigned source subtraction
agrees). -/
def ballStop (env : QEnv) (m : ℕ) : Prop :=
  env.r < ((m : ℚ) - (env.extra : ℚ)) * env.cell_width

instance (env : QEnv) (m : ℕ) : Decidable (ballStop env m) := by
  unfold ballStop; infer_instance

/-- The first shell index at which `ballStop` holds (for positive width
and nonnegative `r`). -/
def ballRcut (env : QEnv) : ℕ := env.extra + ⌊env.r / env.cell_width⌋₊ + 1

/-- The resumable state of a ball iterator: the unread remainder of the
cell `m_cell_iter` points into, the shell walker, the searched-cell set
and the `m_finished` flag. -/
structure BallState where
  pts : List ℕ
  shell : ShellPos
  searched : List ℕ
  finished : Bool
deriving DecidableEq

/-- The accept loop over one cell:
`rsq < r_cutsq && (!m_exclude_ii || m_query_point_idx != j)` returns the
bond and leaves the rest of the cell for the next call. -/
def scanBall (env : QEnv) : List ℕ → Option (QBond × List ℕ)
  | [] => none
  | j :: rest =>
    if env.rsq j < env.r ^ 2 ∧ (env.exclude_ii = false ∨ env.qidx ≠ j) then
      some (⟨env.qidx, j, env.rsq j⟩, rest)
    else scanBall env rest

/-- The inner `while (true)` of the ball iterator: `++m_neigh_cell_iter`,
stop (`none`) when the new shell's closest approach exceeds `m_r`,
otherwise skip cells already in `m_searched_cells`, and stop at the first
fresh cell with its contents. The loop is driven by explicit fuel so that
it is structurally recursive (and hence evaluates in the kernel); the
wrapper below supplies fuel that never runs out when `cell_width > 0`
(for `cell_width ≤ 0` the source loop does not terminate at all, which
the build precondition excludes). -/
def ballAdvanceFuel (env : QEnv) :
    ℕ → ShellPos → List ℕ → ShellPos × List ℕ × Option (List ℕ)
  | 0, shell, searched => (shell, searched, none)
  | fuel + 1, shell, searched =>
    if ballStop env ((shell.inc env.is2D).range) then
      (shell.inc env.is2D, searched, none)
    else if env.cellAt ((shell.inc env.is2D).cur env.is2D) ∈ searched then
      ballAdvanceFuel env fuel (shell.inc env.is2D) searched
    else
      (shell.inc env.is2D,
        env.cellAt ((shell.inc env.is2D).cur env.is2D) :: searched,
        some (env.contents (env.cellAt ((shell.inc env.is2D).cur env.is2D))))

/-- The ball advance loop with sufficient fuel. -/
def ballAdvance (env : QEnv) (shell : ShellPos) (searched : List ℕ) :
    ShellPos × List ℕ × Option (List ℕ) :=
  ballAdvanceFuel env (shellMeasure env.is2D (ballRcut env) shell + 1)
    shell searched

/-- The outer `while (true)` of `LinkCellQueryBallIterator::next`: scan the
current cell, return on the first accepted bond; otherwise advance the
shell walker to the next fresh cell and repeat; once out of range, set
`m_finished` and return the terminator (`none`). Fueled as above. -/
def ballNextLoopFuel (env : QEnv) :
    ℕ → List ℕ → ShellPos → List ℕ → Option QBond × BallState
  | 0, pts, shell, searched => (none, ⟨pts, shell, searched, true⟩)
  | fuel + 1, pts, shell, searched =>
    match scanBall env pts with
    | some (b, rest) => (some b, ⟨rest, shell, searched, false⟩)
    | none =>
      match ballAdvance env shell searched with
      | (shell', searched', none) => (none, ⟨[], shell', searched', true⟩)
      | (shell', searched', some pts') =>
        ballNextLoopFuel env fuel pts' shell' searched'

/-- One `next()` call of the ball iterator (the terminal state absorbs:
per the spec's state machine, `DONE` keeps returning `EXHAUSTED`). -/
def ballNext (env : QEnv) (s : BallState) : Option QBond × BallState :=
  if s.finished then (none, s)
  else
    ballNextLoopFuel env (shellMeasure env.is2D (ballRcut env) s.shell + 1)
      s.pts s.shell s.searched

/-- The query point's home cell: `getCellIndex(point_cell + (0,0,0))`. -/
def homeCell (env : QEnv) : ℕ := env.cellAt ((0 : ℤ), (0 : ℤ), (0 : ℤ))

/-- The freshly constructed ball iterator: `m_cell_iter` on the home cell,
the shell walker at shell 0, and the home cell inserted into
`m_searched_cells` (the first `next()` call inserts it before scanning). -/
def ballInit (env : QEnv) : BallState :=
  ⟨env.contents (homeCell env), ⟨0, 0⟩, [homeCell env], false⟩

/-- State and emitted bonds after `N` calls to `next()` on a fresh ball
iterator. -/
def ballRun (env : QEnv) : ℕ → BallState × List QBond
  | 0 => (ballInit env, [])
  | N + 1 =>
    let p := ballRun env N
    let q := ballNext env p.1
    (q.2, p.2 ++ q.1.toList)

/-! ## The k-nearest iterator (`LinkCellQueryIterator::next`) -/

/-- `max_range = ceil(min_plane_distance / (2 * cell_width)) + 1`. -/
def maxRangeKnn (env : QEnv) : ℕ :=
  ⌈env.min_plane / (2 * env.cell_width)⌉₊ + 1

/-- The k-nearest inner advance loop: `++m_neigh_cell_iter`, break with an
exhausted cell once the walker reaches `IteratorCellShell(max_range)`
(tested as `range ≥ max_range`, equivalent on every walk that starts
below it since the range only ever grows by one), otherwise skip searched
cells and break on the first fresh one with its contents. Fueled for
structural recursion; the wrapper supplies fuel that never runs out. -/
def knnAdvanceFuel (env : QEnv) :
    ℕ → ShellPos → List ℕ → ShellPos × List ℕ × List ℕ
  | 0, shell, searched => (shell, searched, [])
  | fuel + 1, shell, searched =>
    if maxRangeKnn env ≤ (shell.inc env.is2D).range then
      (shell.inc env.is2D, searched, [])
    else if env.cellAt ((shell.inc env.is2D).cur env.is2D) ∈ searched then
      knnAdvanceFuel env fuel (shell.inc env.is2D) searched
    else
      (shell.inc env.is2D,
        env.cellAt ((shell.inc env.is2D).cur env.is2D) :: searched,
        env.contents (env.cellAt ((shell.inc env.is2D).cur env.is2D)))

/-- The k-nearest advance loop with sufficient fuel. -/
def knnAdvance (env : QEnv) (shell : ShellPos) (searched : List ℕ) :
    ShellPos × List ℕ × List ℕ :=
  knnAdvanceFuel env (shellMeasure env.is2D (maxRangeKnn env) shell + 1)
    shell searched

/-- One cell scan of the k-nearest iterator: every member is buffered
(only `m_exclude_ii && m_query_point_idx == j` is skipped, there is no
distance filter). -/
def knnScan (env : QEnv) (pts : List ℕ) : List QBond :=
  (pts.filter fun j => ¬(env.exclude_ii = true ∧ env.qidx = j)).map
    fun j => ⟨env.qidx, j, env.rsq j⟩

/-- The closest possible approach of shell `m`:
`(getRange() - 1) * cell_width` (`ℤ`-subtraction; every reachable check
has `range ≥ 1`, where the unsigned source subtraction agrees). -/
def knnBound (env : QEnv) (m : ℕ) : ℚ := ((m : ℚ) - 1) * env.cell_width

/-- The early-termination test of the k-nearest expansion:
`m_current_neighbors.size() >= k` and
`m_current_neighbors[k - 1].distance < (range - 1) * cell_width` — the
indexing is into the **unsorted** accumulator, exactly as in the source.
In squared-distance form, `dist < bound` is `0 ≤ bound ∧ rsq < bound²`. -/
def knnTermCond (env : QEnv) (acc : List QBond) (m : ℕ) : Prop :=
  env.num_neighbors ≤ acc.length ∧ 0 ≤ knnBound env m ∧
    (acc.getD (env.num_neighbors - 1) ⟨0, 0, 0⟩).rsq < knnBound env m ^ 2

instance (env : QEnv) (acc : List QBond) (m : ℕ) :
    Decidable (knnTermCond env acc m) := by
  unfold knnTermCond; infer_instance

/-- `std::sort(m_current_neighbors.begin(), .end())` with
`NeighborBond::operator<`: sort by distance. `std::sort` leaves the order
of distance ties unspecified; the embedding fixes the stable insertion
sort, and nothing proved below depends on the tie order. -/
def sortBonds (l : List QBond) : List QBond :=
  l.insertionSort fun a b => a.rsq ≤ b.rsq

/-- The shell-expansion `while` loop of `LinkCellQueryIterator::next`:
while the walker has not reached `IteratorCellShell(max_range)`, scan the
current cell into the accumulator, advance to the next fresh cell, and
then early-terminate (sorting the accumulator!) if the termination test
holds at the new walker position. The `max_range` exit leaves the
accumulator unsorted, exactly as in the source. Fueled as above. -/
def knnExpandFuel (env : QEnv) :
    ℕ → List ℕ → ShellPos → List ℕ → List QBond →
      List ℕ × ShellPos × List ℕ × List QBond
  | 0, pts, shell, searched, acc => (pts, shell, searched, acc)
  | fuel + 1, pts, shell, searched, acc =>
    if maxRangeKnn env ≤ shell.range then (pts, shell, searched, acc)
    else
      match knnAdvance env shell searched with
      | (shell', searched', pts') =>
        if knnTermCond env (acc ++ knnScan env pts) shell'.range then
          (pts', shell', searched', sortBonds (acc ++ knnScan env pts))
        else
          knnExpandFuel env fuel pts' shell' searched' (acc ++ knnScan env pts)

/-- The expansion loop with sufficient fuel. -/
def knnExpand (env : QEnv) (pts : List ℕ) (shell : ShellPos)
    (searched : List ℕ) (acc : List QBond) :
    List ℕ × ShellPos × List ℕ × List QBond :=
  knnExpandFuel env (shellMeasure env.is2D (maxRangeKnn env) shell + 1)
    pts shell searched acc

/-- The resumable state of a k-nearest iterator. -/
structure KnnState where
  pts : List ℕ          -- remainder of the cell m_cell_iter points into
  shell : ShellPos      -- m_neigh_cell_iter
  searched : List ℕ     -- m_searched_cells
  acc : List QBond      -- m_current_neighbors
  count : ℕ             -- m_count
  finished : Bool       -- m_finished
deriving DecidableEq

/-- The state after the expansion phase of one `next()` call. -/
def knnExpandState (env : QEnv) (s : KnnState) : KnnState :=
  { s with pts := (knnExpand env s.pts s.shell s.searched s.acc).1,
           shell := (knnExpand env s.pts s.shell s.searched s.acc).2.1,
           searched := (knnExpand env s.pts s.shell s.searched s.acc).2.2.1,
           acc := (knnExpand env s.pts s.shell s.searched s.acc).2.2.2 }

/-- The drain step: one buffered bond while
`m_count < m_num_neighbors && m_count < m_current_neighbors.size()`,
else set `m_finished` and return the terminator. -/
def knnDrain (env : QEnv) (e : KnnState) : Option QBond × KnnState :=
  if e.count < env.num_neighbors ∧ e.count < e.acc.length then
    (some (e.acc.getD e.count ⟨0, 0, 0⟩), { e with count := e.count + 1 })
  else
    (none, { e with finished := true })

/-- One `next()` call of the k-nearest iterator: run the expansion only
when the accumulator is empty, then drain. -/
def knnNext (env : QEnv) (s : KnnState) : Option QBond × KnnState :=
  if s.finished then (none, s)
  else knnDrain env (if s.acc.isEmpty then knnExpandState env s else s)

/-- The freshly constructed k-nearest iterator. -/
def knnInit (env : QEnv) : KnnState :=
  ⟨env.contents (homeCell env), ⟨0, 0⟩, [homeCell env], [], 0, false⟩

/-- State and emitted bonds after `N` calls to `next()` on a fresh
k-nearest iterator. -/
def knnRun (env : QEnv) : ℕ → KnnState × List QBond
  | 0 => (knnInit env, [])
  | N + 1 =>
    let p := knnRun env N
    let q := knnNext env p.1
    (q.2, p.2 ++ q.1.toList)

/-- The brute-force reference: all eligible bonds sorted by distance, first
`k` taken — what the spec's O(n²) comparison computes. -/
def bruteKNearest (env : QEnv) : List QBond :=
  (sortBonds (knnScan env (List.range env.n))).take env.num_neighbors

/-! ## The ball-mode builder (`LinkCell::compute`)

The environment for a `compute(box, points, n, points, n, exclude_ii)`
call in which the same array serves as points and query points: per-pair
squared wrapped distances, the cell of each point, and the cached
`getCellNeighbors` enumeration. The TBB `parallel_for` over query points
and the per-thread buffers contribute exactly one bond per accepted
`(i, neighbor cell, j)` triple; the embedding lists them in loop order. -/

structure CEnv where
  n : ℕ
  exclude_ii : Bool
  cell_width : ℚ
  pointCell : ℕ → ℕ          -- LinkCell::getCell(points[i])
  neighCells : ℕ → List ℕ    -- LinkCell::getCellNeighbors(cell)
  rsq2 : ℕ → ℕ → ℚ           -- dot of m_box.wrap(points[j] - points[i])

/-- Cell membership, as for `QEnv.contents`. -/
def CEnv.contents (env : CEnv) (c : ℕ) : List ℕ :=
  (List.range env.n).filter fun j => env.pointCell j = c

/-- The bond multiset produced by `LinkCell::compute`: for each query
point `i`, each neighbor cell of `i`'s cell and each member `j` of that
cell, skip `exclude_ii && i == j`, accept `rsq < m_cell_width²`. -/
def computeBallBonds (env : CEnv) : List QBond :=
  (List.range env.n).flatMap fun i =>
    (env.neighCells (env.pointCell i)).flatMap fun c =>
      (env.contents c).filterMap fun j =>
        if ¬(env.exclude_ii = true ∧ i = j) ∧ env.rsq2 i j < env.cell_width ^ 2
        then some ⟨i, j, env.rsq2 i j⟩
        else none

/- `Rat` arithmetic is `@[irreducible]` in this toolchain, which blocks
`decide`-evaluation of the concrete configurations below; restore the
kernel-faithful transparency (this has no effect on soundness — the
kernel ignores reducibility attributes). -/
set_option allowUnsafeReducibility true

attribute [semireducible] Rat.add Rat.mul Rat.sub Rat.inv

/-! ## Concrete geometry for counterexamples and witnesses

Modelled from the spec: the wrap, point-binning and cell-index arithmetic
live in Box.h / LinkCell.h, which are not in the source tree. Per the spec
§4.1 `wrap` applies the minimum-image convention, per §4.2 `cellOf` bins a
point by its grid coordinate and `neighborCells`/`getCellIndex` wrap grid
coordinates modulo the grid dimensions. -/

/-- Minimum-image wrap of one coordinate in a periodic box of length `L`. -/
def wrapMinImage (L x : ℚ) : ℚ := x - L * ((round (x / L) : ℤ) : ℚ)

/-- Squared minimum-image distance of 2D points in a periodic square box
of side `L`. -/
def rsq2D (L : ℚ) (p q : ℚ × ℚ) : ℚ :=
  wrapMinImage L (p.1 - q.1) ^ 2 + wrapMinImage L (p.2 - q.2) ^ 2

/-- Cell id on a 5 × 5 2D grid: grid coordinates wrapped into `[0, 5)`. -/
def bugCellId (x y : ℤ) : ℕ := (x % 5).toNat + 5 * (y % 5).toNat

/-- The two points of the failing k-nearest configuration. -/
def bugPoints : List (ℚ × ℚ) := [(5, 5), (9/2, 9/2)]

/-- The failing k-nearest configuration: 2D periodic box 10 × 10 (minimum
nearest-plane distance 10, so `max_range = ceil(10/4)+1 = 4`), cell width
2 (a 5 × 5 grid, build precondition `2·2 ≤ 10` satisfied), query point
(0,0) with home cell (0,0), points p₀ = (5,5) (squared wrapped distance
50) and p₁ = (4.5,4.5) (squared wrapped distance 40.5), both binned to
cell (2,2), and `num_neighbors = 1` without self-exclusion. -/
def bugEnv : QEnv where
  n := 2
  qidx := 0
  exclude_ii := false
  cell_width := 2
  r := 0
  num_neighbors := 1
  extra := 1
  min_plane := 10
  is2D := true
  pointCell := fun j =>
    bugCellId ⌊(bugPoints.getD j (0, 0)).1 / 2⌋ ⌊(bugPoints.getD j (0, 0)).2 / 2⌋
  cellAt := fun o => bugCellId o.1 o.2.1
  rsq := fun j => rsq2D 10 (bugPoints.getD j (0, 0)) (0, 0)

/-- Witness for C3: one point at squared distance 1 inside `r_max = 2`. -/
def wBallEnv : QEnv where
  n := 1
  qidx := 0
  exclude_ii := false
  cell_width := 1
  r := 2
  num_neighbors := 0
  extra := 1
  min_plane := 2
  is2D := false
  pointCell := fun _ => 0
  cellAt := fun _ => 0
  rsq := fun _ => 1

/-- Witness for C8: the `none` mode, and a one-point set whose only point
is the excluded query point itself. -/
def wEmptyEnv : QEnv where
  n := 1
  qidx := 0
  exclude_ii := true
  cell_width := 1
  r := 1
  num_neighbors := 1
  extra := 1
  min_plane := 1
  is2D := false
  pointCell := fun _ => 0
  cellAt := fun _ => 0
  rsq := fun _ => 0

/-- Witness environment for C2: two points in one cell, mutual squared
distance 1, cutoff width 2. -/
def wCEnv : CEnv where
  n := 2
  exclude_ii := false
  cell_width := 2
  pointCell := fun _ => 0
  neighCells := fun _ => [0]
  rsq2 := fun i j => if i = j then 0 else 1

/-! ## Ball iterator termination and exhaustion (C6) -/

/-- Iterating `next()` from an arbitrary state. -/
def ballIter (env : QEnv) (s : BallState) : ℕ → BallState
  | 0 => s
  | k + 1 => (ballNext env (ballIter env s k)).2

/-- The accumulator invariant of the k-nearest expansion: point indices
are duplicate-free, in range, never an excluded self-match, and come
from already-searched cells; the pending cell list is empty or the full
membership of a searched cell none of whose members are buffered yet. -/
def KInv (env : QEnv) (pts searched : List ℕ) (acc : List QBond) : Prop :=
  (acc.map QBond.point_idx).Nodup ∧
  (∀ b ∈ acc, b.point_idx < env.n ∧
    (env.exclude_ii = true → b.point_idx ≠ env.qidx) ∧
    env.pointCell b.point_idx ∈ searched) ∧
  (pts = [] ∨ ∃ c, c ∈ searched ∧ pts = env.contents c ∧
    ∀ b ∈ acc, env.pointCell b.point_idx ≠ c)

lemma mem_axisRange (r : ℕ) {z : ℤ} (h1 : -(r : ℤ) ≤ z) (h2 : z ≤ r) :
    z ∈ axisRange r := by
  simp only [axisRange, List.mem_map, List.mem_range]
  exact ⟨(z + (r : ℤ)).toNat, by omega, by omega⟩

lemma self_mem_shellOffsets (is2D : Bool) (r : ℕ) :
    ((r : ℤ), (0 : ℤ), (0 : ℤ)) ∈ shellOffsets is2D r := by
  have hx : (r : ℤ) ∈ axisRange r := mem_axisRange r (by omega) (by omega)
  have h0 : (0 : ℤ) ∈ axisRange r := mem_axisRange r (by omega) (by omega)
  have hz : (0 : ℤ) ∈ (if is2D then [(0 : ℤ)] else axisRange r) := by
    cases is2D <;> simp [h0]
  simp only [shellOffsets, List.mem_filter]
  refine ⟨?_, ?_⟩
  · simp only [cube, List.mem_flatMap, List.mem_map]
    exact ⟨(r : ℤ), hx, (0 : ℤ), h0, (0 : ℤ), hz, rfl⟩
  · simp [cheb]

lemma offsLen_pos (is2D : Bool) (r : ℕ) : 0 < offsLen is2D r :=
  List.length_pos.mpr (List.ne_nil_of_mem (self_mem_shellOffsets is2D r))

lemma shellsFrom_of_le (is2D : Bool) {R a : ℕ} (h : a ≤ R) :
    shellsFrom is2D R a = offsLen is2D a + shellsFrom is2D R (a + 1) := by
  unfold shellsFrom
  have h1 : R + 1 - a = (R - a) + 1 := by omega
  rw [h1, List.range_succ_eq_map, List.map_cons, List.map_map, List.sum_cons,
    Nat.add_zero]
  have h2 : R + 1 - (a + 1) = R - a := by omega
  rw [h2]
  congr 1
  apply congrArg List.sum
  apply List.map_congr_left
  intro i _
  show offsLen is2D (a + (i + 1)) = offsLen is2D (a + 1 + i)
  congr 1
  omega

lemma offsLen_le_shellsFrom (is2D : Bool) {R a : ℕ} (h : a ≤ R) :
    offsLen is2D a ≤ shellsFrom is2D R a := by
  rw [shellsFrom_of_le is2D h]; omega

lemma shellMeasure_inc_lt (is2D : Bool) (R : ℕ) (p : ShellPos)
    (h : (p.inc is2D).range ≤ R) :
    shellMeasure is2D R (p.inc is2D) < shellMeasure is2D R p := by
  by_cases hc : p.skipped + 1 < offsLen is2D p.range
  · have h' : p.range ≤ R := by simpa [ShellPos.inc, hc] using h
    have hS : offsLen is2D p.range ≤ shellsFrom is2D R p.range :=
      offsLen_le_shellsFrom _ h'
    simp only [ShellPos.inc, if_pos hc]
    unfold shellMeasure
    dsimp only
    omega
  · have h' : p.range + 1 ≤ R := by simpa [ShellPos.inc, hc] using h
    have hsplit : shellsFrom is2D R p.range
        = offsLen is2D p.range + shellsFrom is2D R (p.range + 1) :=
      shellsFrom_of_le _ (by omega)
    have hpos : 0 < offsLen is2D p.range := offsLen_pos _ _
    simp only [ShellPos.inc, if_neg hc]
    unfold shellMeasure
    dsimp only
    omega

lemma ShellPos.inc_range_le (is2D : Bool) (p : ShellPos) :
    (p.inc is2D).range ≤ p.range + 1 := by
  unfold ShellPos.inc; split <;> simp

lemma ShellPos.range_le_inc_range (is2D : Bool) (p : ShellPos) :
    p.range ≤ (p.inc is2D).range := by
  unfold ShellPos.inc; split <;> simp

lemma lt_ballRcut_of_not_stop {env : QEnv} (hw : 0 < env.cell_width) {m : ℕ}
    (h : ¬ ballStop env m) : m < ballRcut env := by
  unfold ballStop at h
  push_neg at h
  unfold ballRcut
  by_cases hm : m ≤ env.extra
  · omega
  · have hcast : ((m - env.extra : ℕ) : ℚ) = (m : ℚ) - env.extra :=
      Nat.cast_sub (by omega)
    have h1 : ((m - env.extra : ℕ) : ℚ) ≤ env.r / env.cell_width := by
      rw [le_div_iff₀ hw, hcast]
      exact h
    have h2 : m - env.extra ≤ ⌊env.r / env.cell_width⌋₊ := Nat.le_floor h1
    omega

lemma ballStop_of_ballRcut_le {env : QEnv} (hw : 0 < env.cell_width) {m : ℕ}
    (h : ballRcut env ≤ m) : ballStop env m := by
  unfold ballRcut at h
  unfold ballStop
  have h1 : env.r / env.cell_width < (⌊env.r / env.cell_width⌋₊ : ℚ) + 1 :=
    Nat.lt_floor_add_one _
  have h2 : env.r < ((⌊env.r / env.cell_width⌋₊ : ℚ) + 1) * env.cell_width := by
    rw [← div_lt_iff₀ hw]
    exact h1
  have h3 : ((⌊env.r / env.cell_width⌋₊ : ℚ) + 1) ≤ (m : ℚ) - env.extra := by
    have hle : ((env.extra : ℚ)) + (⌊env.r / env.cell_width⌋₊ : ℚ) + 1 ≤ (m : ℚ) := by
      exact_mod_cast h
    linarith
  calc env.r < ((⌊env.r / env.cell_width⌋₊ : ℚ) + 1) * env.cell_width := h2
    _ ≤ ((m : ℚ) - env.extra) * env.cell_width :=
        mul_le_mul_of_nonneg_right h3 (le_of_lt hw)

lemma not_ballStop_of_lt_ballRcut {env : QEnv} (hw : 0 < env.cell_width)
    (hr : 0 ≤ env.r) {m : ℕ} (h : m < ballRcut env) : ¬ ballStop env m := by
  unfold ballRcut at h
  unfold ballStop
  intro hcon
  by_cases hm : m ≤ env.extra
  · have h1 : (m : ℚ) - env.extra ≤ 0 := by
      have : (m : ℚ) ≤ (env.extra : ℚ) := by exact_mod_cast hm
      linarith
    nlinarith
  · have hm' : m - env.extra ≤ ⌊env.r / env.cell_width⌋₊ := by omega
    have h1 : ((m - env.extra : ℕ) : ℚ) ≤ env.r / env.cell_width := by
      calc ((m - env.extra : ℕ) : ℚ) ≤ (⌊env.r / env.cell_width⌋₊ : ℚ) := by
            exact_mod_cast hm'
        _ ≤ env.r / env.cell_width :=
            Nat.floor_le (div_nonneg hr (le_of_lt hw))
    have hcast : ((m - env.extra : ℕ) : ℚ) = (m : ℚ) - env.extra :=
      Nat.cast_sub (by omega)
    have h2 : ((m : ℚ) - env.extra) * env.cell_width ≤ env.r := by
      rw [← hcast]
      calc ((m - env.extra : ℕ) : ℚ) * env.cell_width
          ≤ (env.r / env.cell_width) * env.cell_width :=
            mul_le_mul_of_nonneg_right h1 (le_of_lt hw)
        _ = env.r := div_mul_cancel₀ _ (ne_of_gt hw)
    linarith

/-! ## NeighborBond order lemmas (C7, C10) -/

lemma less_as_tuple_true_iff (a b : NeighborBond) :
    NeighborBond.less_as_tuple a b = true ↔ NeighborBond.tupleLex a b := by
  unfold NeighborBond.less_as_tuple NeighborBond.tupleLex
  by_cases h1 : a.query_point_idx = b.query_point_idx
  · rw [if_neg (by simp [h1])]
    by_cases h2 : a.point_idx = b.point_idx
    · rw [if_neg (by simp [h2])]
      by_cases h3 : a.weight = b.weight
      · rw [if_neg (by simp [h3])]
        simp [h1, h2, h3]
      · rw [if_pos h3]
        simp [h1, h2, h3]
    · rw [if_pos h2]
      simp [h1, h2]
  · rw [if_pos h1]
    simp [h1]

lemma tupleLex_trans {a b c : NeighborBond}
    (h1 : NeighborBond.tupleLex a b) (h2 : NeighborBond.tupleLex b c) :
    NeighborBond.tupleLex a c := by
  unfold NeighborBond.tupleLex at *
  obtain h1q | ⟨h1q, h1r⟩ := h1 <;> obtain h2q | ⟨h2q, h2r⟩ := h2
  · left; omega
  · left; omega
  · left; omega
  · right
    refine ⟨h1q.trans h2q, ?_⟩
    obtain h1p | ⟨h1p, h1s⟩ := h1r <;> obtain h2p | ⟨h2p, h2s⟩ := h2r
    · left; omega
    · left; omega
    · left; omega
    · right
      refine ⟨h1p.trans h2p, ?_⟩
      obtain h1w | ⟨h1w, h1d⟩ := h1s <;> obtain h2w | ⟨h2w, h2d⟩ := h2s
      · left; linarith
      · left; linarith
      · left; linarith
      · right; exact ⟨h1w.trans h2w, h1d.trans h2d⟩

lemma tupleLex_irrefl (a : NeighborBond) : ¬ NeighborBond.tupleLex a a := by
  unfold NeighborBond.tupleLex
  simp

lemma less_as_tuple_both_false {a b : NeighborBond}
    (h1 : NeighborBond.less_as_tuple a b = false)
    (h2 : NeighborBond.less_as_tuple b a = false) :
    a.query_point_idx = b.query_point_idx ∧ a.point_idx = b.point_idx ∧
      a.weight = b.weight ∧ a.distance = b.distance := by
  unfold NeighborBond.less_as_tuple at h1 h2
  by_cases hq : a.query_point_idx = b.query_point_idx
  · rw [if_neg (by simp [hq])] at h1
    rw [if_neg (by simp [hq])] at h2
    by_cases hp : a.point_idx = b.point_idx
    · rw [if_neg (by simp [hp])] at h1
      rw [if_neg (by simp [hp])] at h2
      by_cases hw : a.weight = b.weight
      · rw [if_neg (by simp [hw])] at h1
        rw [if_neg (by simp [hw])] at h2
        simp only [decide_eq_false_iff_not, not_lt] at h1 h2
        exact ⟨hq, hp, hw, le_antisymm h2 h1⟩
      · rw [if_pos hw] at h1
        rw [if_pos (Ne.symm hw)] at h2
        simp only [decide_eq_false_iff_not, not_lt] at h1 h2
        exact absurd (le_antisymm h2 h1) hw
    · rw [if_pos hp] at h1
      rw [if_pos (Ne.symm hp)] at h2
      simp only [decide_eq_false_iff_not, not_lt] at h1 h2
      omega
  · rw [if_pos hq] at h1
    rw [if_pos (Ne.symm hq)] at h2
    simp only [decide_eq_false_iff_not, not_lt] at h1 h2
    omega

/-- **C7.** `NeighborBond` provides two comparison orders: `operator<`
compares by `distance` alone, and `less_as_tuple` is the strict
lexicographic order on `(query_point_idx, point_idx, weight, distance)`;
both are strict weak orderings (irreflexive, transitive, with transitive
incomparability), as required for `std::sort`. -/
theorem claim7_neighbor_bond_orders :
    (∀ a b : NeighborBond, NeighborBond.ltDefault a b = true ↔
      a.distance < b.distance) ∧
    (∀ a b : NeighborBond, NeighborBond.less_as_tuple a b = true ↔
      NeighborBond.tupleLex a b) ∧
    (∀ a : NeighborBond, NeighborBond.ltDefault a a = false) ∧
    (∀ a b c : NeighborBond, NeighborBond.ltDefault a b = true →
      NeighborBond.ltDefault b c = true → NeighborBond.ltDefault a c = true) ∧
    (∀ a b c : NeighborBond,
      NeighborBond.ltDefault a b = false → NeighborBond.ltDefault b a = false →
      NeighborBond.ltDefault b c = false → NeighborBond.ltDefault c b = false →
      NeighborBond.ltDefault a c = false ∧ NeighborBond.ltDefault c a = false) ∧
    (∀ a : NeighborBond, NeighborBond.less_as_tuple a a = false) ∧
    (∀ a b c : NeighborBond, NeighborBond.less_as_tuple a b = true →
      NeighborBond.less_as_tuple b c = true →
      NeighborBond.less_as_tuple a c = true) ∧
    (∀ a b c : NeighborBond,
      NeighborBond.less_as_tuple a b = false →
      NeighborBond.less_as_tuple b a = false →
      NeighborBond.less_as_tuple b c = false →
      NeighborBond.less_as_tuple c b = false →
      NeighborBond.less_as_tuple a c = false ∧
        NeighborBond.less_as_tuple c a = false) := by
  refine ⟨?_, ?_, ?_, ?_, ?_, ?_, ?_, ?_⟩
  · intro a b
    unfold NeighborBond.ltDefault
    simp
  · exact less_as_tuple_true_iff
  · intro a
    unfold NeighborBond.ltDefault
    simp
  · intro a b c h1 h2
    unfold NeighborBond.ltDefault at *
    simp only [decide_eq_true_eq] at *
    linarith
  · intro a b c h1 h2 h3 h4
    unfold NeighborBond.ltDefault at *
    simp only [decide_eq_false_iff_not, not_lt] at *
    constructor <;> linarith
  · intro a
    rw [Bool.eq_false_iff]
    intro hcon
    exact tupleLex_irrefl a ((less_as_tuple_true_iff a a).mp hcon)
  · intro a b c h1 h2
    rw [less_as_tuple_true_iff] at *
    exact tupleLex_trans h1 h2
  · intro a b c h1 h2 h3 h4
    obtain ⟨e1, e2, e3, e4⟩ := less_as_tuple_both_false h1 h2
    obtain ⟨f1, f2, f3, f4⟩ := less_as_tuple_both_false h3 h4
    constructor <;>
      · rw [Bool.eq_false_iff]
        intro hcon
        rw [less_as_tuple_true_iff] at hcon
        unfold NeighborBond.tupleLex at hcon
        obtain h | ⟨_, h | ⟨_, h | ⟨_, h⟩⟩⟩ := hcon <;>
          first
            | omega
            | (rw [e3, f3] at * <;> linarith)
            | (rw [e4, f4] at * <;> linarith)
            | linarith [e3, f3, e4, f4]

/-- **C10.** `NeighborBond` equality ignores the `weight` field: two bonds
equal in `query_point_idx`, `point_idx`, `distance` and `vector` compare
equal under `operator==` (and not-unequal under `operator!=`) even with
different weights, while the lexicographic comparators `less_as_tuple`
and `less_id_ref_weight` do distinguish them by weight. -/
theorem claim10_equality_ignores_weight (q p : ℕ) (d w₁ w₂ : ℚ)
    (v : ℚ × ℚ × ℚ) (hw : w₁ ≠ w₂) :
    NeighborBond.beq ⟨q, p, d, w₁, v⟩ ⟨q, p, d, w₂, v⟩ = true ∧
    NeighborBond.bneq ⟨q, p, d, w₁, v⟩ ⟨q, p, d, w₂, v⟩ = false ∧
    (NeighborBond.less_as_tuple ⟨q, p, d, w₁, v⟩ ⟨q, p, d, w₂, v⟩ = true ∨
      NeighborBond.less_as_tuple ⟨q, p, d, w₂, v⟩ ⟨q, p, d, w₁, v⟩ = true) ∧
    (NeighborBond.less_id_ref_weight ⟨q, p, d, w₁, v⟩ ⟨q, p, d, w₂, v⟩ = true ∨
      NeighborBond.less_id_ref_weight ⟨q, p, d, w₂, v⟩ ⟨q, p, d, w₁, v⟩
        = true) := by
  refine ⟨?_, ?_, ?_, ?_⟩
  · unfold NeighborBond.beq
    simp
  · unfold NeighborBond.bneq NeighborBond.beq
    simp
  · rcases lt_or_gt_of_ne hw with h | h
    · left
      unfold NeighborBond.less_as_tuple
      simp [hw, h]
    · right
      unfold NeighborBond.less_as_tuple
      simp [Ne.symm hw, h]
  · rcases lt_or_gt_of_ne hw with h | h
    · left
      unfold NeighborBond.less_id_ref_weight
      simp [h]
    · right
      unfold NeighborBond.less_id_ref_weight
      simp [h]

/-- Witness for C10 at a concrete input. -/
theorem claim10_witness :
    (0 : ℚ) ≠ 1 ∧
    (NeighborBond.beq ⟨1, 2, 3, 0, (0, 0, 0)⟩ ⟨1, 2, 3, 1, (0, 0, 0)⟩ = true ∧
     NeighborBond.bneq ⟨1, 2, 3, 0, (0, 0, 0)⟩ ⟨1, 2, 3, 1, (0, 0, 0)⟩ = false ∧
     (NeighborBond.less_as_tuple ⟨1, 2, 3, 0, (0, 0, 0)⟩
        ⟨1, 2, 3, 1, (0, 0, 0)⟩ = true ∨
      NeighborBond.less_as_tuple ⟨1, 2, 3, 1, (0, 0, 0)⟩
        ⟨1, 2, 3, 0, (0, 0, 0)⟩ = true) ∧
     (NeighborBond.less_id_ref_weight ⟨1, 2, 3, 0, (0, 0, 0)⟩
        ⟨1, 2, 3, 1, (0, 0, 0)⟩ = true ∨
      NeighborBond.less_id_ref_weight ⟨1, 2, 3, 1, (0, 0, 0)⟩
        ⟨1, 2, 3, 0, (0, 0, 0)⟩ = true)) :=
  ⟨by norm_num, claim10_equality_ignores_weight 1 2 3 0 1 (0, 0, 0) (by norm_num)⟩

/-! ## Ball iterator lemmas (C3, C6, C8) -/

lemma scanBall_eq_some (env : QEnv) :
    ∀ (pts : List ℕ) (b : QBond) (rest : List ℕ),
      scanBall env pts = some (b, rest) →
      b.query_point_idx = env.qidx ∧ b.point_idx ∈ pts ∧
        b.rsq = env.rsq b.point_idx ∧ env.rsq b.point_idx < env.r ^ 2 ∧
        (env.exclude_ii = false ∨ env.qidx ≠ b.point_idx) ∧ rest ⊆ pts := by
  intro pts
  induction pts with
  | nil => intro b rest h; simp [scanBall] at h
  | cons j t ih =>
    intro b rest h
    rw [scanBall] at h
    split_ifs at h with hg
    · cases h
      exact ⟨rfl, List.mem_cons_self _ _, rfl, hg.1, hg.2,
        fun x hx => List.mem_cons_of_mem _ hx⟩
    · obtain ⟨h1, h2, h3, h4, h5, h6⟩ := ih b rest h
      exact ⟨h1, List.mem_cons_of_mem _ h2, h3, h4, h5,
        fun x hx => List.mem_cons_of_mem _ (h6 hx)⟩

lemma scanBall_eq_none (env : QEnv) (pts : List ℕ)
    (h : ∀ j ∈ pts, ¬(env.rsq j < env.r ^ 2 ∧
      (env.exclude_ii = false ∨ env.qidx ≠ j))) :
    scanBall env pts = none := by
  induction pts with
  | nil => rfl
  | cons j t ih =>
    rw [scanBall, if_neg (h j (List.mem_cons_self _ _))]
    exact ih fun x hx => h x (List.mem_cons_of_mem _ hx)

lemma ballAdvanceFuel_some_contents (env : QEnv) :
    ∀ (fuel : ℕ) (shell : ShellPos) (searched : List ℕ) (shell' : ShellPos)
      (searched' pts' : List ℕ),
      ballAdvanceFuel env fuel shell searched = (shell', searched', some pts') →
      ∃ c, pts' = env.contents c := by
  intro fuel
  induction fuel with
  | zero => intro shell searched shell' searched' pts' h; simp [ballAdvanceFuel] at h
  | succ n ih =>
    intro shell searched shell' searched' pts' h
    rw [ballAdvanceFuel] at h
    split_ifs at h with h1 h2
    · simp at h
    · exact ih _ _ _ _ _ h
    · cases h
      exact ⟨_, rfl⟩

lemma mem_contents_lt (env : QEnv) {c j : ℕ} (h : j ∈ env.contents c) :
    j < env.n := by
  unfold QEnv.contents at h
  simp only [List.mem_filter, List.mem_range] at h
  exact h.1

lemma ballNextLoopFuel_some_guard (env : QEnv) :
    ∀ (fuel : ℕ) (pts : List ℕ) (shell : ShellPos) (searched : List ℕ)
      (b : QBond) (s' : BallState),
      ballNextLoopFuel env fuel pts shell searched = (some b, s') →
      b.query_point_idx = env.qidx ∧ b.rsq = env.rsq b.point_idx ∧
        env.rsq b.point_idx < env.r ^ 2 ∧
        (env.exclude_ii = false ∨ env.qidx ≠ b.point_idx) := by
  intro fuel
  induction fuel with
  | zero => intro pts shell searched b s' h; simp [ballNextLoopFuel] at h
  | succ n ih =>
    intro pts shell searched b s' h
    rw [ballNextLoopFuel] at h
    cases hscan : scanBall env pts with
    | none =>
      rw [hscan] at h
      rcases hadv : ballAdvance env shell searched with ⟨shell', searched', o⟩
      rw [hadv] at h
      cases o with
      | none => simp at h
      | some pts' => exact ih _ _ _ _ _ h
    | some pr =>
      obtain ⟨b₀, rest⟩ := pr
      rw [hscan] at h
      cases h
      obtain ⟨h1, _, h3, h4, h5, _⟩ := scanBall_eq_some env pts _ _ hscan
      exact ⟨h1, h3, h4, h5⟩

/-- **C3.** Every bond yielded by a `next()` call of the ball iterator has
squared wrapped distance strictly below `r_max²`, never pairs the query
point with itself when self-exclusion is requested, carries the query
point index and the point's own wrapped distance, and each call yields at
most one bond. -/
theorem claim3_ball_bond_guard (env : QEnv) (s : BallState) (b : QBond)
    (s' : BallState) (h : ballNext env s = (some b, s')) :
    b.rsq < env.r ^ 2 ∧
    (env.exclude_ii = true → b.point_idx ≠ env.qidx) ∧
    b.query_point_idx = env.qidx ∧ b.rsq = env.rsq b.point_idx ∧
    (∀ t : BallState, (ballNext env t).1.toList.length ≤ 1) := by
  unfold ballNext at h
  split_ifs at h with hfin
  · simp at h
  · obtain ⟨h1, h2, h3, h4⟩ := ballNextLoopFuel_some_guard env _ _ _ _ _ _ h
    refine ⟨?_, ?_, h1, h2, ?_⟩
    · rw [h2]; exact h3
    · intro hex
      rcases h4 with h4 | h4
      · rw [hex] at h4; cases h4
      · exact fun hc => h4 (hc ▸ rfl)
    · intro t
      rcases (ballNext env t).1 with - | b₀ <;> simp

set_option maxRecDepth 4000 in
theorem claim3_witness :
    ballNext wBallEnv (ballInit wBallEnv)
      = (some ⟨0, 0, 1⟩, (ballNext wBallEnv (ballInit wBallEnv)).2) ∧
    ((⟨0, 0, 1⟩ : QBond).rsq < wBallEnv.r ^ 2 ∧
     (wBallEnv.exclude_ii = true → (⟨0, 0, 1⟩ : QBond).point_idx ≠ wBallEnv.qidx) ∧
     (⟨0, 0, 1⟩ : QBond).query_point_idx = wBallEnv.qidx ∧
     (⟨0, 0, 1⟩ : QBond).rsq = wBallEnv.rsq (⟨0, 0, 1⟩ : QBond).point_idx ∧
     (∀ t : BallState, (ballNext wBallEnv t).1.toList.length ≤ 1)) :=
  ⟨by decide, claim3_ball_bond_guard wBallEnv (ballInit wBallEnv) ⟨0, 0, 1⟩
    (ballNext wBallEnv (ballInit wBallEnv)).2 (by decide)⟩

/-! ## Build claims (C4, C9) -/

/-- **C4 counterexample.** A 2D box with nearest-plane distances
`(10, 10, 0)` and cell width `1` satisfies `2·w > npd.z` (the z
nearest-plane distance of a 2D box is its zero z-extent), yet
`updateInternal` succeeds: the z-axis width check is skipped for 2D
boxes, so the claim as stated — *any* exceeded nearest-plane distance
fails the build — is false. -/
theorem claim4_counterexample :
    ((⟨10, 10, 0, true⟩ : BoxData) ≠ nullBox ∧ (0 : ℚ) < 1 ∧
      (1 : ℚ) * 2 > (⟨10, 10, 0, true⟩ : BoxData).npdz) ∧
    updateInternalFresh ⟨10, 10, 0, true⟩ 1 ≠ .error .invalidCellWidth ∧
    updateInternalFresh ⟨10, 10, 0, true⟩ 1 = .ok (10, 10, 1) := by
  refine ⟨⟨?_, ?_, ?_⟩, ?_, ?_⟩ <;> decide

/-- **C4 (amended).** For every non-null box and cell width `w`, if `2·w`
exceeds the x or y nearest-plane distance, or the z nearest-plane
distance of a 3D box (the z check is skipped for 2D boxes), the build
fails with `InvalidCellWidth`. -/
theorem claim4_invalid_cell_width (box : BoxData) (w : ℚ)
    (hnull : box ≠ nullBox)
    (hbig : w * 2 > box.npdx ∨ w * 2 > box.npdy ∨
      (¬box.is2D ∧ w * 2 > box.npdz)) :
    updateInternalFresh box w = .error .invalidCellWidth := by
  unfold updateInternalFresh
  split_ifs with hg h2 h3
  · exact absurd hg.2 hnull
  · rfl
  · exact absurd ⟨hnull, hbig⟩ h2
  · exact absurd ⟨hnull, hbig⟩ h2

/-- Witness for the amended C4: cubic 3D box with `npd = (4,4,4)` and
width 3 (`6 > 4`). -/
theorem claim4_witness :
    ((⟨4, 4, 4, false⟩ : BoxData) ≠ nullBox ∧
      ((3 : ℚ) * 2 > (⟨4, 4, 4, false⟩ : BoxData).npdx ∨
        (3 : ℚ) * 2 > (⟨4, 4, 4, false⟩ : BoxData).npdy ∨
        (¬(⟨4, 4, 4, false⟩ : BoxData).is2D ∧
          (3 : ℚ) * 2 > (⟨4, 4, 4, false⟩ : BoxData).npdz))) ∧
    updateInternalFresh ⟨4, 4, 4, false⟩ 3 = .error .invalidCellWidth :=
  ⟨⟨by decide, Or.inl (by decide)⟩,
    claim4_invalid_cell_width ⟨4, 4, 4, false⟩ 3 (by decide)
      (Or.inl (by decide))⟩

/-- **C9.** Building the cell list with zero points fails with
`EmptyPointSet`, for every box and cell width on which `updateInternal`
itself succeeds (the build preconditions). -/
theorem claim9_zero_points_empty_point_set (box : BoxData) (w : ℚ)
    (dims : ℕ × ℕ × ℕ) (hok : updateInternalFresh box w = .ok dims) :
    buildLinkCell box w 0 = .error .emptyPointSet := by
  unfold buildLinkCell
  rw [hok]
  rfl

/-- Witness for C9: a 10×10×10 box with width 1. -/
theorem claim9_witness :
    updateInternalFresh ⟨10, 10, 10, false⟩ 1 = .ok (10, 10, 10) ∧
    buildLinkCell ⟨10, 10, 10, false⟩ 1 0 = .error .emptyPointSet :=
  ⟨by decide,
    claim9_zero_points_empty_point_set ⟨10, 10, 10, false⟩ 1 (10, 10, 10)
      (by decide)⟩

/-! ## The k-nearest correctness bug (C1) -/

/-- **C1 (code bug).** At the configuration `bugEnv` — points
p₀ = (5,5) and p₁ = (4.5,4.5) of a 10×10 2D periodic box with cell width
2, query point (0,0), `num_neighbors = 1` — the k-nearest iterator driven
to exhaustion returns the single bond to p₀ (squared distance 50,
distance ≈ 7.07) although the true nearest neighbor is p₁ (squared
distance 40.5, distance ≈ 6.36). The expansion exits through the
`max_range` condition with the accumulator still in insertion order
`[p₀, p₁]` — never sorted — because the early-termination test reads
`m_current_neighbors[k-1]` of the *unsorted* accumulator (50 < 6² fails
throughout), and the drain then returns the first inserted bond instead
of the closest one. -/
theorem claim1_knn_returns_wrong_neighbor :
    (knnRun bugEnv 2).2 = [⟨0, 0, 50⟩] ∧
    (knnRun bugEnv 2).1.finished = true ∧
    (knnRun bugEnv 3).2 = [⟨0, 0, 50⟩] ∧
    (knnRun bugEnv 2).1.acc = [⟨0, 0, 50⟩, ⟨0, 1, 81/2⟩] ∧
    bruteKNearest bugEnv = [⟨0, 1, 81/2⟩] ∧
    (knnRun bugEnv 2).2 ≠ bruteKNearest bugEnv := by
  refine ⟨?_, ?_, ?_, ?_, ?_, ?_⟩ <;> decide

/-! ## Zero-eligible-neighbor runs (C8) -/

lemma ballNextLoopFuel_no_bond (env : QEnv)
    (hball : ∀ j < env.n, ¬(env.rsq j < env.r ^ 2 ∧
      (env.exclude_ii = false ∨ env.qidx ≠ j))) :
    ∀ (fuel : ℕ) (pts : List ℕ) (shell : ShellPos) (searched : List ℕ),
      (∀ j ∈ pts, j < env.n) →
      (ballNextLoopFuel env fuel pts shell searched).1 = none ∧
      (∀ j ∈ (ballNextLoopFuel env fuel pts shell searched).2.pts,
        j < env.n) := by
  intro fuel
  induction fuel with
  | zero =>
    intro pts shell searched hpts
    exact ⟨rfl, hpts⟩
  | succ n ih =>
    intro pts shell searched hpts
    have hscan : scanBall env pts = none :=
      scanBall_eq_none env pts fun j hj => hball j (hpts j hj)
    rw [ballNextLoopFuel, hscan]
    rcases hadv : ballAdvance env shell searched with ⟨shell', searched', o⟩
    cases o with
    | none => exact ⟨rfl, by intro j hj; simp at hj⟩
    | some pts' =>
      obtain ⟨c, hc⟩ := ballAdvanceFuel_some_contents env _ _ _ _ _ _ hadv
      exact ih pts' shell' searched'
        (fun j hj => mem_contents_lt env (hc ▸ hj))

lemma ballRun_no_bond (env : QEnv)
    (hball : ∀ j < env.n, ¬(env.rsq j < env.r ^ 2 ∧
      (env.exclude_ii = false ∨ env.qidx ≠ j))) :
    ∀ N : ℕ, (ballRun env N).2 = [] ∧
      (∀ j ∈ (ballRun env N).1.pts, j < env.n) := by
  intro N
  induction N with
  | zero =>
    exact ⟨rfl, fun j hj => mem_contents_lt env hj⟩
  | succ n ih =>
    obtain ⟨hout, hpts⟩ := ih
    rw [ballRun]
    unfold ballNext
    split_ifs with hfin
    · simpa [hout] using hpts
    · obtain ⟨h1, h2⟩ := ballNextLoopFuel_no_bond env hball
        (shellMeasure env.is2D (ballRcut env) (ballRun env n).1.shell + 1)
        (ballRun env n).1.pts (ballRun env n).1.shell
        (ballRun env n).1.searched hpts
      simp only [hout, h1]
      refine ⟨rfl, ?_⟩
      exact h2

lemma knnScan_eq_nil (env : QEnv) (pts : List ℕ)
    (h : ∀ j ∈ pts, env.exclude_ii = true ∧ env.qidx = j) :
    knnScan env pts = [] := by
  unfold knnScan
  rw [List.filter_eq_nil_iff.mpr]
  · rfl
  · intro j hj
    simp only [decide_eq_true_eq, Bool.not_eq_true', decide_eq_false_iff_not]
    intro hcon
    exact hcon (h j hj)

lemma knnAdvanceFuel_pts_lt (env : QEnv) :
    ∀ (fuel : ℕ) (shell : ShellPos) (searched : List ℕ),
      ∀ j ∈ (knnAdvanceFuel env fuel shell searched).2.2, j < env.n := by
  intro fuel
  induction fuel with
  | zero => intro shell searched j hj; simp [knnAdvanceFuel] at hj
  | succ n ih =>
    intro shell searched j hj
    rw [knnAdvanceFuel] at hj
    split_ifs at hj with h1 h2
    · simp at hj
    · exact ih _ _ j hj
    · exact mem_contents_lt env hj

lemma knnAdvance_pts_lt (env : QEnv) (shell : ShellPos) (searched : List ℕ) :
    ∀ j ∈ (knnAdvance env shell searched).2.2, j < env.n :=
  knnAdvanceFuel_pts_lt env _ shell searched

lemma knnExpandFuel_nil (env : QEnv)
    (hknn : ∀ j < env.n, env.exclude_ii = true ∧ env.qidx = j) :
    ∀ (fuel : ℕ) (pts : List ℕ) (shell : ShellPos) (searched : List ℕ)
      (acc : List QBond),
      (∀ j ∈ pts, j < env.n) → acc = [] →
      (knnExpandFuel env fuel pts shell searched acc).2.2.2 = [] ∧
      (∀ j ∈ (knnExpandFuel env fuel pts shell searched acc).1, j < env.n) := by
  intro fuel
  induction fuel with
  | zero =>
    intro pts shell searched acc hpts hacc
    exact ⟨hacc, hpts⟩
  | succ n ih =>
    intro pts shell searched acc hpts hacc
    have hnil : acc ++ knnScan env pts = [] := by
      rw [hacc, knnScan_eq_nil env pts fun j hj => hknn j (hpts j hj)]
      rfl
    rw [knnExpandFuel]
    split_ifs with h1
    · exact ⟨hacc, hpts⟩
    · rcases hadv : knnAdvance env shell searched with ⟨shell', searched', pts'⟩
      have hpts' : ∀ j ∈ pts', j < env.n := by
        intro j hj
        have hbase := knnAdvance_pts_lt env shell searched j
        rw [hadv] at hbase
        exact hbase hj
      dsimp only
      split_ifs with h2
      · refine ⟨?_, hpts'⟩
        rw [hnil]
        rfl
      · exact ih pts' shell' searched' _ hpts' hnil

lemma knnExpand_nil (env : QEnv)
    (hknn : ∀ j < env.n, env.exclude_ii = true ∧ env.qidx = j)
    (pts : List ℕ) (shell : ShellPos) (searched : List ℕ) (acc : List QBond)
    (hpts : ∀ j ∈ pts, j < env.n) (hacc : acc = []) :
    (knnExpand env pts shell searched acc).2.2.2 = [] ∧
    (∀ j ∈ (knnExpand env pts shell searched acc).1, j < env.n) :=
  knnExpandFuel_nil env hknn _ pts shell searched acc hpts hacc

lemma knnNext_no_bond (env : QEnv)
    (hknn : ∀ j < env.n, env.exclude_ii = true ∧ env.qidx = j)
    (s : KnnState) (hacc : s.acc = []) (hpts : ∀ j ∈ s.pts, j < env.n) :
    (knnNext env s).1 = none ∧ (knnNext env s).2.acc = [] ∧
      (∀ j ∈ (knnNext env s).2.pts, j < env.n) := by
  unfold knnNext
  split_ifs with hfin hempty
  · exact ⟨rfl, hacc, hpts⟩
  · obtain ⟨hacc', hpts'⟩ :=
      knnExpand_nil env hknn s.pts s.shell s.searched s.acc hpts hacc
    unfold knnDrain knnExpandState
    rw [if_neg (by simp [hacc'])]
    exact ⟨rfl, hacc', hpts'⟩
  · exact absurd (by rw [hacc]; rfl) hempty

lemma knnRun_no_bond (env : QEnv)
    (hknn : ∀ j < env.n, env.exclude_ii = true ∧ env.qidx = j) :
    ∀ N : ℕ, (knnRun env N).2 = [] ∧ (knnRun env N).1.acc = [] ∧
      (∀ j ∈ (knnRun env N).1.pts, j < env.n) := by
  intro N
  induction N with
  | zero =>
    exact ⟨rfl, rfl, fun j hj => mem_contents_lt env hj⟩
  | succ n ih =>
    obtain ⟨hout, hacc, hpts⟩ := ih
    obtain ⟨h1, h2, h3⟩ := knnNext_no_bond env hknn (knnRun env n).1 hacc hpts
    refine ⟨?_, h2, h3⟩
    rw [knnRun]
    simp [hout, h1]

/-- **C8.** Constructing a per-point query iterator with a mode value that
is neither `ball` nor `nearest` fails with `InvalidQueryMode`, while a
query point with zero eligible neighbors (no point passes the ball accept
guard; every point is an excluded self-match for k-nearest) produces no
bonds and no error: both iterators run to quiet exhaustion. -/
theorem claim8_invalid_mode_and_empty_result (args : QueryArgsData)
    (env : QEnv)
    (h1 : args.mode ≠ .ball) (h2 : args.mode ≠ .nearest)
    (hball : ∀ j < env.n, ¬(env.rsq j < env.r ^ 2 ∧
      (env.exclude_ii = false ∨ env.qidx ≠ j)))
    (hknn : ∀ j < env.n, env.exclude_ii = true ∧ env.qidx = j) :
    querySingle args = .error .invalidQueryMode ∧
    (∀ N : ℕ, (ballRun env N).2 = []) ∧
    (∀ N : ℕ, (knnRun env N).2 = []) := by
  refine ⟨?_, ?_, ?_⟩
  · unfold querySingle validateQueryArgs
    rw [if_neg h1, if_neg h2]
  · exact fun N => (ballRun_no_bond env hball N).1
  · exact fun N => (knnRun_no_bond env hknn N).1

theorem claim8_witness :
    ((⟨.none, 1, 1, true⟩ : QueryArgsData).mode ≠ .ball ∧
      (⟨.none, 1, 1, true⟩ : QueryArgsData).mode ≠ .nearest ∧
      (∀ j < wEmptyEnv.n, ¬(wEmptyEnv.rsq j < wEmptyEnv.r ^ 2 ∧
        (wEmptyEnv.exclude_ii = false ∨ wEmptyEnv.qidx ≠ j))) ∧
      (∀ j < wEmptyEnv.n, wEmptyEnv.exclude_ii = true ∧ wEmptyEnv.qidx = j)) ∧
    (querySingle ⟨.none, 1, 1, true⟩ = .error .invalidQueryMode ∧
      (∀ N : ℕ, (ballRun wEmptyEnv N).2 = []) ∧
      (∀ N : ℕ, (knnRun wEmptyEnv N).2 = [])) :=
  ⟨⟨by decide, by decide, by decide, by decide⟩,
    claim8_invalid_mode_and_empty_result ⟨.none, 1, 1, true⟩ wEmptyEnv
      (by decide) (by decide) (by decide) (by decide)⟩

/-! ## Ball-mode compute symmetry (C2) -/

lemma mem_computeBallBonds (env : CEnv)
    (hcov : ∀ i < env.n, ∀ j < env.n,
      env.rsq2 i j < env.cell_width ^ 2 →
      env.pointCell j ∈ env.neighCells (env.pointCell i))
    (i j : ℕ) (d : ℚ) :
    (⟨i, j, d⟩ : QBond) ∈ computeBallBonds env ↔
      i < env.n ∧ j < env.n ∧ ¬(env.exclude_ii = true ∧ i = j) ∧
        d = env.rsq2 i j ∧ env.rsq2 i j < env.cell_width ^ 2 := by
  unfold computeBallBonds
  constructor
  · intro h
    simp only [List.mem_flatMap, List.mem_filterMap, List.mem_range] at h
    obtain ⟨i', hi', c, hc, j', hj', hif⟩ := h
    have hj'n : j' < env.n := by
      unfold CEnv.contents at hj'
      simp only [List.mem_filter, List.mem_range] at hj'
      exact hj'.1
    split_ifs at hif with hg
    cases hif
    exact ⟨hi', hj'n, hg.1, rfl, hg.2⟩
  · rintro ⟨hi, hj, hne, hd, hlt⟩
    simp only [List.mem_flatMap, List.mem_filterMap, List.mem_range]
    refine ⟨i, hi, env.pointCell j, hcov i hi j hj hlt, j, ?_, ?_⟩
    · unfold CEnv.contents
      simp only [List.mem_filter, List.mem_range]
      exact ⟨hj, by simp⟩
    · rw [if_pos ⟨hne, hlt⟩, hd]

/-- **C2.** When the same point set serves as points and query points, the
bond multiset produced by the ball-mode `LinkCell::compute` is symmetric:
the bond `(i, j)` at distance `d` is present exactly when `(j, i)` at the
same `d` is, including self-bonds when `exclude_ii` is unset (and neither
direction of a self-bond when it is set). The two geometric hypotheses
record what the box and grid guarantee: minimum-image distance is
symmetric in its endpoints, and any pair within the cutoff lies in
mutually neighboring cells (cell-width precondition). -/
theorem claim2_ball_compute_symmetric (env : CEnv)
    (hsym : ∀ i < env.n, ∀ j < env.n, env.rsq2 i j = env.rsq2 j i)
    (hcov : ∀ i < env.n, ∀ j < env.n,
      env.rsq2 i j < env.cell_width ^ 2 →
      env.pointCell j ∈ env.neighCells (env.pointCell i))
    (i j : ℕ) (d : ℚ) :
    (⟨i, j, d⟩ : QBond) ∈ computeBallBonds env ↔
      (⟨j, i, d⟩ : QBond) ∈ computeBallBonds env := by
  rw [mem_computeBallBonds env hcov, mem_computeBallBonds env hcov]
  constructor
  · rintro ⟨h1, h2, h3, h4, h5⟩
    refine ⟨h2, h1, ?_, ?_, ?_⟩
    · intro ⟨he, hij⟩; exact h3 ⟨he, hij.symm⟩
    · rw [h4]; exact hsym i h1 j h2
    · rw [← hsym i h1 j h2]; exact h5
  · rintro ⟨h1, h2, h3, h4, h5⟩
    refine ⟨h2, h1, ?_, ?_, ?_⟩
    · intro ⟨he, hij⟩; exact h3 ⟨he, hij.symm⟩
    · rw [h4]; exact hsym j h1 i h2
    · rw [← hsym j h1 i h2]; exact h5

theorem claim2_witness :
    ((∀ i < wCEnv.n, ∀ j < wCEnv.n, wCEnv.rsq2 i j = wCEnv.rsq2 j i) ∧
      (∀ i < wCEnv.n, ∀ j < wCEnv.n,
        wCEnv.rsq2 i j < wCEnv.cell_width ^ 2 →
        wCEnv.pointCell j ∈ wCEnv.neighCells (wCEnv.pointCell i))) ∧
    ((⟨0, 1, 1⟩ : QBond) ∈ computeBallBonds wCEnv ↔
      (⟨1, 0, 1⟩ : QBond) ∈ computeBallBonds wCEnv) :=
  ⟨⟨by decide, by decide⟩,
    claim2_ball_compute_symmetric wCEnv (by decide) (by decide) 0 1 1⟩

lemma ballIter_succ_shift (env : QEnv) (s : BallState) (k : ℕ) :
    ballIter env s (k + 1) = ballIter env (ballNext env s).2 k := by
  induction k with
  | zero => rfl
  | succ k ih =>
    show (ballNext env (ballIter env s (k + 1))).2 = _
    rw [ih]
    rfl

lemma scanBall_some_length (env : QEnv) :
    ∀ (pts : List ℕ) (b : QBond) (rest : List ℕ),
      scanBall env pts = some (b, rest) → rest.length < pts.length := by
  intro pts
  induction pts with
  | nil => intro b rest h; simp [scanBall] at h
  | cons j t ih =>
    intro b rest h
    rw [scanBall] at h
    split_ifs at h with hg
    · cases h; simp
    · exact lt_trans (ih _ _ h) (by simp)

lemma ballAdvanceFuel_none_rcut (env : QEnv) (hw : 0 < env.cell_width)
    (hr : 0 ≤ env.r) :
    ∀ (fuel : ℕ) (shell : ShellPos) (searched : List ℕ) (shell' : ShellPos)
      (searched' : List ℕ),
      shellMeasure env.is2D (ballRcut env) shell < fuel →
      ¬ ballStop env shell.range →
      ballAdvanceFuel env fuel shell searched = (shell', searched', none) →
      shell'.range = ballRcut env := by
  intro fuel
  induction fuel with
  | zero => intro shell searched shell' searched' hlt hns h; omega
  | succ n ih =>
    intro shell searched shell' searched' hlt hns h
    rw [ballAdvanceFuel] at h
    split_ifs at h with h1 h2
    · cases h
      have hlow : shell.range < ballRcut env := lt_ballRcut_of_not_stop hw hns
      have hup := ShellPos.inc_range_le env.is2D shell
      have hge : ballRcut env ≤ (shell.inc env.is2D).range := by
        by_contra hcon
        exact not_ballStop_of_lt_ballRcut hw hr (lt_of_not_le hcon) h1
      omega
    · have hle : (shell.inc env.is2D).range ≤ ballRcut env :=
        le_of_lt (lt_ballRcut_of_not_stop hw h1)
      have hdec := shellMeasure_inc_lt env.is2D (ballRcut env) shell hle
      exact ih _ _ _ _ (by omega) h1 h
    · cases h

lemma ballAdvanceFuel_some_not_stop (env : QEnv) :
    ∀ (fuel : ℕ) (shell : ShellPos) (searched : List ℕ) (shell' : ShellPos)
      (searched' pts' : List ℕ),
      ballAdvanceFuel env fuel shell searched = (shell', searched', some pts') →
      ¬ ballStop env shell'.range := by
  intro fuel
  induction fuel with
  | zero => intro shell searched shell' searched' pts' h; simp [ballAdvanceFuel] at h
  | succ n ih =>
    intro shell searched shell' searched' pts' h
    rw [ballAdvanceFuel] at h
    split_ifs at h with h1 h2
    · simp at h
    · exact ih _ _ _ _ _ h
    · cases h
      exact h1

lemma ballAdvanceFuel_some_measure_lt (env : QEnv) (hw : 0 < env.cell_width) :
    ∀ (fuel : ℕ) (shell : ShellPos) (searched : List ℕ) (shell' : ShellPos)
      (searched' pts' : List ℕ),
      ballAdvanceFuel env fuel shell searched = (shell', searched', some pts') →
      shellMeasure env.is2D (ballRcut env) shell'
        < shellMeasure env.is2D (ballRcut env) shell := by
  intro fuel
  induction fuel with
  | zero => intro shell searched shell' searched' pts' h; simp [ballAdvanceFuel] at h
  | succ n ih =>
    intro shell searched shell' searched' pts' h
    rw [ballAdvanceFuel] at h
    split_ifs at h with h1 h2
    · simp at h
    · have hle : (shell.inc env.is2D).range ≤ ballRcut env :=
        le_of_lt (lt_ballRcut_of_not_stop hw h1)
      exact lt_trans (ih _ _ _ _ _ h)
        (shellMeasure_inc_lt env.is2D (ballRcut env) shell hle)
    · cases h
      exact shellMeasure_inc_lt env.is2D (ballRcut env) shell
        (le_of_lt (lt_ballRcut_of_not_stop hw h1))

lemma ballNextLoopFuel_none_finished (env : QEnv) :
    ∀ (fuel : ℕ) (pts : List ℕ) (shell : ShellPos) (searched : List ℕ)
      (s' : BallState),
      ballNextLoopFuel env fuel pts shell searched = (none, s') →
      s'.finished = true := by
  intro fuel
  induction fuel with
  | zero => intro pts shell searched s' h; cases h; rfl
  | succ n ih =>
    intro pts shell searched s' h
    rw [ballNextLoopFuel] at h
    cases hscan : scanBall env pts with
    | none =>
      rw [hscan] at h
      rcases hadv : ballAdvance env shell searched with ⟨shell', searched', o⟩
      rw [hadv] at h
      cases o with
      | none => cases h; rfl
      | some pts' => exact ih _ _ _ _ h
    | some pr =>
      rw [hscan] at h
      cases h

lemma ballNextLoopFuel_none_rcut (env : QEnv) (hw : 0 < env.cell_width)
    (hr : 0 ≤ env.r) :
    ∀ (fuel : ℕ) (pts : List ℕ) (shell : ShellPos) (searched : List ℕ)
      (s' : BallState),
      shellMeasure env.is2D (ballRcut env) shell < fuel →
      ¬ ballStop env shell.range →
      ballNextLoopFuel env fuel pts shell searched = (none, s') →
      s'.shell.range = ballRcut env := by
  intro fuel
  induction fuel with
  | zero => intro pts shell searched s' hlt hns h; omega
  | succ n ih =>
    intro pts shell searched s' hlt hns h
    rw [ballNextLoopFuel] at h
    cases hscan : scanBall env pts with
    | none =>
      rw [hscan] at h
      rcases hadv : ballAdvance env shell searched with ⟨shell', searched', o⟩
      rw [hadv] at h
      cases o with
      | none =>
        cases h
        exact ballAdvanceFuel_none_rcut env hw hr _ _ _ _ _
          (Nat.lt_succ_self _) hns hadv
      | some pts' =>
        have hns' : ¬ ballStop env shell'.range :=
          ballAdvanceFuel_some_not_stop env _ _ _ _ _ _ hadv
        have hdec : shellMeasure env.is2D (ballRcut env) shell'
            < shellMeasure env.is2D (ballRcut env) shell :=
          ballAdvanceFuel_some_measure_lt env hw _ _ _ _ _ _ hadv
        exact ih _ _ _ _ (by omega) hns' h
    | some pr =>
      rw [hscan] at h
      cases h

lemma ballNextLoopFuel_some_measure (env : QEnv) (hw : 0 < env.cell_width) :
    ∀ (fuel : ℕ) (pts : List ℕ) (shell : ShellPos) (searched : List ℕ)
      (b : QBond) (s' : BallState),
      ballNextLoopFuel env fuel pts shell searched = (some b, s') →
      (shellMeasure env.is2D (ballRcut env) s'.shell
          = shellMeasure env.is2D (ballRcut env) shell ∧
        s'.pts.length < pts.length) ∨
      shellMeasure env.is2D (ballRcut env) s'.shell
        < shellMeasure env.is2D (ballRcut env) shell := by
  intro fuel
  induction fuel with
  | zero => intro pts shell searched b s' h; cases h
  | succ n ih =>
    intro pts shell searched b s' h
    rw [ballNextLoopFuel] at h
    cases hscan : scanBall env pts with
    | none =>
      rw [hscan] at h
      rcases hadv : ballAdvance env shell searched with ⟨shell', searched', o⟩
      rw [hadv] at h
      cases o with
      | none => cases h
      | some pts' =>
        have hdec : shellMeasure env.is2D (ballRcut env) shell'
            < shellMeasure env.is2D (ballRcut env) shell :=
          ballAdvanceFuel_some_measure_lt env hw _ _ _ _ _ _ hadv
        rcases ih _ _ _ _ _ h with ⟨heq, _⟩ | hlt
        · right; omega
        · right; omega
    | some pr =>
      obtain ⟨b₀, rest⟩ := pr
      rw [hscan] at h
      cases h
      left
      exact ⟨rfl, scanBall_some_length env pts _ _ hscan⟩

lemma ball_step_core (env : QEnv) (hw : 0 < env.cell_width) (s : BallState)
    (IH1 : ∀ s' : BallState,
      shellMeasure env.is2D (ballRcut env) s'.shell
        < shellMeasure env.is2D (ballRcut env) s.shell →
      ∃ k, (ballIter env s' k).finished = true)
    (IH2 : ∀ s' : BallState,
      shellMeasure env.is2D (ballRcut env) s'.shell
        = shellMeasure env.is2D (ballRcut env) s.shell →
      s'.pts.length < s.pts.length →
      ∃ k, (ballIter env s' k).finished = true) :
    ∃ k, (ballIter env s k).finished = true := by
  by_cases hfin : s.finished = true
  · exact ⟨0, hfin⟩
  rcases hnext : ballNext env s with ⟨o, s'⟩
  have hstep : ballIter env s 1 = s' := by
    show (ballNext env s).2 = s'
    rw [hnext]
  cases o with
  | none =>
    refine ⟨1, ?_⟩
    rw [hstep]
    unfold ballNext at hnext
    rw [if_neg hfin] at hnext
    exact ballNextLoopFuel_none_finished env _ _ _ _ _ hnext
  | some b =>
    have hloop : ballNextLoopFuel env
        (shellMeasure env.is2D (ballRcut env) s.shell + 1)
        s.pts s.shell s.searched = (some b, s') := by
      unfold ballNext at hnext
      rw [if_neg hfin] at hnext
      exact hnext
    rcases ballNextLoopFuel_some_measure env hw _ _ _ _ _ _ hloop with
      ⟨heq, hlen⟩ | hlt
    · obtain ⟨k, hk⟩ := IH2 s' heq hlen
      refine ⟨k + 1, ?_⟩
      rw [ballIter_succ_shift, show (ballNext env s).2 = s' from by rw [hnext]]
      exact hk
    · obtain ⟨k, hk⟩ := IH1 s' hlt
      refine ⟨k + 1, ?_⟩
      rw [ballIter_succ_shift, show (ballNext env s).2 = s' from by rw [hnext]]
      exact hk

lemma ball_exists_finished (env : QEnv) (hw : 0 < env.cell_width) :
    ∀ (a b : ℕ) (s : BallState),
      shellMeasure env.is2D (ballRcut env) s.shell ≤ a → s.pts.length ≤ b →
      ∃ k, (ballIter env s k).finished = true := by
  intro a
  induction a with
  | zero =>
    intro b
    induction b with
    | zero =>
      intro s hμ hlen
      refine ball_step_core env hw s (fun s' hlt => absurd hlt (by omega))
        (fun s' _ hlt => absurd hlt (by omega))
    | succ b ihb =>
      intro s hμ hlen
      refine ball_step_core env hw s (fun s' hlt => absurd hlt (by omega))
        (fun s' heq hlt => ihb s' (by omega) (by omega))
  | succ a iha =>
    intro b
    induction b with
    | zero =>
      intro s hμ hlen
      refine ball_step_core env hw s
        (fun s' hlt => iha s'.pts.length s' (by omega) le_rfl)
        (fun s' _ hlt => absurd hlt (by omega))
    | succ b ihb =>
      intro s hμ hlen
      refine ball_step_core env hw s
        (fun s' hlt => iha s'.pts.length s' (by omega) le_rfl)
        (fun s' heq hlt => ihb s' (by omega) (by omega))

lemma ballRun_state_eq_iter (env : QEnv) :
    ∀ N : ℕ, (ballRun env N).1 = ballIter env (ballInit env) N := by
  intro N
  induction N with
  | zero => rfl
  | succ n ih =>
    show (ballNext env (ballRun env n).1).2 = _
    rw [ih]
    rfl

/-- **C6.** For every query point (any iterator state): a finished ball
iterator keeps returning `EXHAUSTED` unchanged; an `EXHAUSTED` return
from a live state leaves the walker exactly at the first shell whose
closest approach `(range - extra) * cell_width` exceeds `r_max` (shells
strictly below `ballRcut` never satisfy the stop test and `ballRcut`
does); and a fresh iterator reaches the terminal state after finitely
many `next()` calls, after which every call returns `EXHAUSTED` and no
further bonds are emitted. -/
theorem claim6_ball_termination (env : QEnv) (hw : 0 < env.cell_width)
    (hr : 0 ≤ env.r) :
    (∀ s : BallState, s.finished = true → ballNext env s = (none, s)) ∧
    (∀ s s' : BallState, s.finished = false →
      ¬ ballStop env s.shell.range →
      ballNext env s = (none, s') →
      s'.finished = true ∧ s'.shell.range = ballRcut env ∧
        ballStop env (ballRcut env) ∧
        (∀ m < ballRcut env, ¬ ballStop env m)) ∧
    (∃ N, ∀ M, N ≤ M → (ballRun env M).1.finished = true ∧
      (ballNext env (ballRun env M).1).1 = none ∧
      (ballRun env M).2 = (ballRun env N).2) := by
  have habs : ∀ s : BallState, s.finished = true → ballNext env s = (none, s) := by
    intro s h
    unfold ballNext
    rw [if_pos h]
  refine ⟨habs, ?_, ?_⟩
  · intro s s' hfin hns h
    unfold ballNext at h
    rw [if_neg (by rw [hfin]; exact Bool.false_ne_true)] at h
    refine ⟨ballNextLoopFuel_none_finished env _ _ _ _ _ h,
      ballNextLoopFuel_none_rcut env hw hr _ _ _ _ _ (Nat.lt_succ_self _) hns h,
      ballStop_of_ballRcut_le hw le_rfl,
      fun m hm => not_ballStop_of_lt_ballRcut hw hr hm⟩
  · obtain ⟨k, hk⟩ := ball_exists_finished env hw
      (shellMeasure env.is2D (ballRcut env) (ballInit env).shell)
      (ballInit env).pts.length (ballInit env) le_rfl le_rfl
    have hfinN : (ballRun env k).1.finished = true := by
      rw [ballRun_state_eq_iter]
      exact hk
    refine ⟨k, ?_⟩
    intro M hM
    induction M, hM using Nat.le_induction with
    | base =>
      refine ⟨hfinN, ?_, rfl⟩
      rw [habs _ hfinN]
    | succ m hm ihm =>
      obtain ⟨ih1, ih2, ih3⟩ := ihm
      have hstep : ballNext env (ballRun env m).1 = (none, (ballRun env m).1) :=
        habs _ ih1
      have hstate : (ballRun env (m + 1)).1 = (ballRun env m).1 := by
        show (ballNext env (ballRun env m).1).2 = _
        rw [hstep]
      have hout : (ballRun env (m + 1)).2 = (ballRun env m).2 := by
        show (ballRun env m).2 ++ (ballNext env (ballRun env m).1).1.toList = _
        rw [hstep]
        simp
      refine ⟨?_, ?_, ?_⟩
      · rw [hstate]; exact ih1
      · rw [hstate, hstep]
      · rw [hout]; exact ih3

/-- Witness for C6 at the concrete ball environment. -/
theorem claim6_witness :
    ((0 : ℚ) < wBallEnv.cell_width ∧ (0 : ℚ) ≤ wBallEnv.r) ∧
    ((∀ s : BallState, s.finished = true → ballNext wBallEnv s = (none, s)) ∧
     (∀ s s' : BallState, s.finished = false →
       ¬ ballStop wBallEnv s.shell.range →
       ballNext wBallEnv s = (none, s') →
       s'.finished = true ∧ s'.shell.range = ballRcut wBallEnv ∧
         ballStop wBallEnv (ballRcut wBallEnv) ∧
         (∀ m < ballRcut wBallEnv, ¬ ballStop wBallEnv m)) ∧
     (∃ N, ∀ M, N ≤ M → (ballRun wBallEnv M).1.finished = true ∧
       (ballNext wBallEnv (ballRun wBallEnv M).1).1 = none ∧
       (ballRun wBallEnv M).2 = (ballRun wBallEnv N).2)) :=
  ⟨⟨by decide, by decide⟩, claim6_ball_termination wBallEnv (by decide) (by decide)⟩

/-! ## K-nearest accumulator invariants (C5) -/

/-- The cell membership lists are duplicate-free. -/
lemma contents_nodup (env : QEnv) (c : ℕ) : (env.contents c).Nodup :=
  (List.nodup_range _).filter _

lemma mem_contents_cell (env : QEnv) {c j : ℕ} (h : j ∈ env.contents c) :
    env.pointCell j = c := by
  unfold QEnv.contents at h
  simp only [List.mem_filter, List.mem_range, decide_eq_true_eq] at h
  exact h.2

lemma knnScan_map_pidx (env : QEnv) (pts : List ℕ) :
    (knnScan env pts).map QBond.point_idx
      = pts.filter fun j => ¬(env.exclude_ii = true ∧ env.qidx = j) := by
  unfold knnScan
  rw [List.map_map]
  exact List.map_id _

lemma knnScan_mem (env : QEnv) {pts : List ℕ} {b : QBond}
    (h : b ∈ knnScan env pts) :
    b.query_point_idx = env.qidx ∧ b.point_idx ∈ pts ∧
      ¬(env.exclude_ii = true ∧ env.qidx = b.point_idx) := by
  unfold knnScan at h
  simp only [List.mem_map, List.mem_filter, decide_eq_true_eq,
    Bool.not_eq_true', decide_eq_false_iff_not] at h
  obtain ⟨j, ⟨hj1, hj2⟩, hj3⟩ := h
  cases hj3
  exact ⟨rfl, hj1, hj2⟩

lemma kinv_scan (env : QEnv) {pts searched : List ℕ} {acc : List QBond}
    (h : KInv env pts searched acc) :
    ((acc ++ knnScan env pts).map QBond.point_idx).Nodup ∧
    (∀ b ∈ acc ++ knnScan env pts, b.point_idx < env.n ∧
      (env.exclude_ii = true → b.point_idx ≠ env.qidx) ∧
      env.pointCell b.point_idx ∈ searched) := by
  obtain ⟨hnd, hbv, hcell⟩ := h
  have hmem : ∀ b ∈ knnScan env pts, b.point_idx < env.n ∧
      (env.exclude_ii = true → b.point_idx ≠ env.qidx) ∧
      env.pointCell b.point_idx ∈ searched := by
    intro b hb
    obtain ⟨_, hbpts, hbex⟩ := knnScan_mem env hb
    rcases hcell with hnil | ⟨c, hc1, hc2, hc3⟩
    · rw [hnil] at hbpts; cases hbpts
    · rw [hc2] at hbpts
      refine ⟨mem_contents_lt env hbpts, ?_, ?_⟩
      · intro hex heq
        exact hbex ⟨hex, heq.symm⟩
      · rw [mem_contents_cell env hbpts]
        exact hc1
  constructor
  · rw [List.map_append]
    rw [List.nodup_append]
    refine ⟨hnd, ?_, ?_⟩
    · rw [knnScan_map_pidx]
      rcases hcell with hnil | ⟨c, _, hc2, _⟩
      · rw [hnil]; exact List.nodup_nil
      · rw [hc2]; exact (contents_nodup env c).filter _
    · intro x hx hy
      rw [knnScan_map_pidx] at hy
      rcases hcell with hnil | ⟨c, _, hc2, hc3⟩
      · rw [hnil] at hy; cases hy
      · rw [hc2] at hy
        have hyc : env.pointCell x = c :=
          mem_contents_cell env (List.mem_of_mem_filter hy)
        obtain ⟨b, hb, hbx⟩ := List.mem_map.mp hx
        apply hc3 b hb
        rw [hbx, hyc]
  · intro b hb
    rcases List.mem_append.mp hb with hb | hb
    · exact hbv b hb
    · exact hmem b hb

lemma knnAdvanceFuel_cases (env : QEnv) :
    ∀ (fuel : ℕ) (shell : ShellPos) (searched : List ℕ),
      ((knnAdvanceFuel env fuel shell searched).2.1 = searched ∧
        (knnAdvanceFuel env fuel shell searched).2.2 = []) ∨
      (∃ c', c' ∉ searched ∧
        (knnAdvanceFuel env fuel shell searched).2.1 = c' :: searched ∧
        (knnAdvanceFuel env fuel shell searched).2.2 = env.contents c') := by
  intro fuel
  induction fuel with
  | zero => intro shell searched; exact Or.inl ⟨rfl, rfl⟩
  | succ n ih =>
    intro shell searched
    rw [knnAdvanceFuel]
    split_ifs with h1 h2
    · exact Or.inl ⟨rfl, rfl⟩
    · exact ih _ _
    · exact Or.inr ⟨_, h2, rfl, rfl⟩

lemma sortBonds_perm (l : List QBond) : (sortBonds l).Perm l :=
  List.perm_insertionSort _ l

lemma knnExpandFuel_kinv (env : QEnv) :
    ∀ (fuel : ℕ) (pts : List ℕ) (shell : ShellPos) (searched : List ℕ)
      (acc : List QBond),
      KInv env pts searched acc →
      KInv env (knnExpandFuel env fuel pts shell searched acc).1
        (knnExpandFuel env fuel pts shell searched acc).2.2.1
        (knnExpandFuel env fuel pts shell searched acc).2.2.2 := by
  intro fuel
  induction fuel with
  | zero => intro pts shell searched acc h; exact h
  | succ n ih =>
    intro pts shell searched acc h
    rw [knnExpandFuel]
    split_ifs with hend
    · exact h
    obtain ⟨hnd1, hbv1⟩ := kinv_scan env h
    rcases hadv : knnAdvance env shell searched with ⟨shell', searched', pts'⟩
    have hcases := knnAdvanceFuel_cases env
      (shellMeasure env.is2D (maxRangeKnn env) shell + 1) shell searched
    rw [show knnAdvanceFuel env
        (shellMeasure env.is2D (maxRangeKnn env) shell + 1) shell searched
        = (shell', searched', pts') from hadv] at hcases
    dsimp only at hcases
    have hkinv' : KInv env pts' searched' (acc ++ knnScan env pts) := by
      rcases hcases with ⟨hs, hp⟩ | ⟨c', hc1, hc2, hc3⟩
      · rw [hs, hp]
        exact ⟨hnd1, hbv1, Or.inl rfl⟩
      · rw [hc2, hc3]
        refine ⟨hnd1, ?_, ?_⟩
        · intro b hb
          obtain ⟨hb1, hb2, hb3⟩ := hbv1 b hb
          exact ⟨hb1, hb2, List.mem_cons_of_mem _ hb3⟩
        · refine Or.inr ⟨c', List.mem_cons_self _ _, rfl, ?_⟩
          intro b hb hcon
          apply hc1
          rw [← hcon]
          exact (hbv1 b hb).2.2
    dsimp only
    split_ifs with hterm
    · obtain ⟨hnd', hbv', hcell'⟩ := hkinv'
      refine ⟨?_, ?_, ?_⟩
      · exact (((sortBonds_perm (acc ++ knnScan env pts)).map
          QBond.point_idx).nodup_iff).mpr hnd'
      · intro b hb
        exact hbv' b ((sortBonds_perm _).mem_iff.mp hb)
      · rcases hcell' with hnil | ⟨c, hc1, hc2, hc3⟩
        · exact Or.inl hnil
        · refine Or.inr ⟨c, hc1, hc2, ?_⟩
          intro b hb
          exact hc3 b ((sortBonds_perm _).mem_iff.mp hb)
    · exact ih _ _ _ _ hkinv'

lemma knnExpandState_kinv (env : QEnv) (s : KnnState)
    (h : KInv env s.pts s.searched s.acc) :
    KInv env (knnExpandState env s).pts (knnExpandState env s).searched
      (knnExpandState env s).acc :=
  knnExpandFuel_kinv env _ s.pts s.shell s.searched s.acc h

lemma knnRun_kinv (env : QEnv) :
    ∀ N : ℕ,
      KInv env (knnRun env N).1.pts (knnRun env N).1.searched
        (knnRun env N).1.acc ∧
      (knnRun env N).1.count ≤ env.num_neighbors ∧
      (knnRun env N).1.count ≤ (knnRun env N).1.acc.length ∧
      (knnRun env N).2 = (knnRun env N).1.acc.take (knnRun env N).1.count := by
  intro N
  induction N with
  | zero =>
    refine ⟨⟨List.nodup_nil, ?_, ?_⟩, Nat.zero_le _, Nat.zero_le _, rfl⟩
    · intro b hb; cases hb
    · exact Or.inr ⟨homeCell env, List.mem_cons_self _ _, rfl,
        fun b hb => absurd hb (List.not_mem_nil b)⟩
  | succ n ih =>
    obtain ⟨hk, hck, hcl, hout⟩ := ih
    by_cases hfin : (knnRun env n).1.finished = true
    · have hnext : knnNext env (knnRun env n).1 = (none, (knnRun env n).1) := by
        unfold knnNext
        rw [if_pos hfin]
      have h1 : (knnRun env (n + 1)).1 = (knnNext env (knnRun env n).1).2 := rfl
      have h2 : (knnRun env (n + 1)).2
          = (knnRun env n).2 ++ (knnNext env (knnRun env n).1).1.toList := rfl
      rw [h1, h2, hnext]
      exact ⟨hk, hck, hcl, by simpa using hout⟩
    · have hnext : knnNext env (knnRun env n).1
          = knnDrain env (if (knnRun env n).1.acc.isEmpty then
              knnExpandState env (knnRun env n).1 else (knnRun env n).1) := by
        unfold knnNext
        rw [if_neg hfin]
      have hE : KInv env
            (if (knnRun env n).1.acc.isEmpty then
              knnExpandState env (knnRun env n).1 else (knnRun env n).1).pts
            (if (knnRun env n).1.acc.isEmpty then
              knnExpandState env (knnRun env n).1 else (knnRun env n).1).searched
            (if (knnRun env n).1.acc.isEmpty then
              knnExpandState env (knnRun env n).1 else (knnRun env n).1).acc ∧
          (if (knnRun env n).1.acc.isEmpty then
              knnExpandState env (knnRun env n).1 else (knnRun env n).1).count
            = (knnRun env n).1.count ∧
          (if (knnRun env n).1.acc.isEmpty then
              knnExpandState env (knnRun env n).1 else (knnRun env n).1).count
            ≤ (if (knnRun env n).1.acc.isEmpty then
              knnExpandState env (knnRun env n).1 else (knnRun env n).1).acc.length ∧
          (knnRun env n).2
            = (if (knnRun env n).1.acc.isEmpty then
                knnExpandState env (knnRun env n).1 else (knnRun env n).1).acc.take
              (if (knnRun env n).1.acc.isEmpty then
                knnExpandState env (knnRun env n).1 else (knnRun env n).1).count := by
        split_ifs with hempty
        · have hanil : (knnRun env n).1.acc = [] := List.isEmpty_iff.mp hempty
          have hczero : (knnRun env n).1.count = 0 := by
            rw [hanil] at hcl
            simpa using hcl
          refine ⟨knnExpandState_kinv env _ hk, rfl, ?_, ?_⟩
          · show (knnRun env n).1.count ≤ _
            rw [hczero]
            exact Nat.zero_le _
          · show (knnRun env n).2 = List.take (knnRun env n).1.count _
            rw [hczero, hout, hczero, hanil]
            rfl
        · exact ⟨hk, rfl, hcl, hout⟩
      obtain ⟨hEk, hEc, hEl, hEo⟩ := hE
      set E := (if (knnRun env n).1.acc.isEmpty then
        knnExpandState env (knnRun env n).1 else (knnRun env n).1) with hEdef
      have h1 : (knnRun env (n + 1)).1 = (knnNext env (knnRun env n).1).2 := rfl
      have h2 : (knnRun env (n + 1)).2
          = (knnRun env n).2 ++ (knnNext env (knnRun env n).1).1.toList := rfl
      by_cases hd : E.count < env.num_neighbors ∧ E.count < E.acc.length
      · have hdrain : knnNext env (knnRun env n).1
            = (some (E.acc.getD E.count ⟨0, 0, 0⟩), { E with count := E.count + 1 }) := by
          rw [hnext]
          unfold knnDrain
          rw [if_pos hd]
        rw [h1, h2, hdrain]
        refine ⟨?_, ?_, ?_, ?_⟩
        · show KInv env E.pts E.searched E.acc
          exact hEk
        · show E.count + 1 ≤ env.num_neighbors
          omega
        · show E.count + 1 ≤ E.acc.length
          omega
        · show (knnRun env n).2 ++ [E.acc.getD E.count ⟨0, 0, 0⟩]
            = E.acc.take (E.count + 1)
          rw [hEo, List.take_succ, List.getElem?_eq_getElem hd.2]
          simp [List.getD_eq_getElem?_getD, List.getElem?_eq_getElem hd.2]
      · have hdrain : knnNext env (knnRun env n).1
            = (none, { E with finished := true }) := by
          rw [hnext]
          unfold knnDrain
          rw [if_neg hd]
        rw [h1, h2, hdrain]
        refine ⟨?_, ?_, ?_, ?_⟩
        · show KInv env E.pts E.searched E.acc
          exact hEk
        · show E.count ≤ env.num_neighbors
          omega
        · exact hEl
        · show (knnRun env n).2 ++ [] = E.acc.take E.count
          simpa using hEo

/-- **C5.** A k-nearest query yields at most `num_neighbors` bonds over
any number of `next()` calls, never repeats a point index for the same
query point, and with self-exclusion set yields at most `n_points - 1`
bonds when the query point is one of the points. -/
theorem claim5_knn_at_most_k (env : QEnv) (hq : env.qidx < env.n) (N : ℕ) :
    (knnRun env N).2.length ≤ env.num_neighbors ∧
    ((knnRun env N).2.map QBond.point_idx).Nodup ∧
    (env.exclude_ii = true → (knnRun env N).2.length ≤ env.n - 1) := by
  obtain ⟨⟨hnd, hbv, _⟩, hck, hcl, hout⟩ := knnRun_kinv env N
  refine ⟨?_, ?_, ?_⟩
  · rw [hout, List.length_take]
    omega
  · rw [hout, List.map_take]
    exact List.Nodup.sublist (List.take_sublist _ _) hnd
  · intro hex
    have hsub : (knnRun env N).1.acc.map QBond.point_idx
        ⊆ (List.range env.n).filter (· != env.qidx) := by
      intro x hx
      obtain ⟨b, hb, hbx⟩ := List.mem_map.mp hx
      obtain ⟨hb1, hb2, _⟩ := hbv b hb
      rw [List.mem_filter, ← hbx]
      exact ⟨List.mem_range.mpr hb1, by simpa using hb2 hex⟩
    have hsp := (List.Nodup.subperm hnd hsub).length_le
    have hflen : ((List.range env.n).filter (· != env.qidx)).length
        = env.n - 1 := by
      rw [← List.Nodup.erase_eq_filter (List.nodup_range env.n) env.qidx,
        List.length_erase_of_mem (List.mem_range.mpr hq), List.length_range]
    rw [hout, List.length_take]
    rw [hflen] at hsp
    have hacclen : (knnRun env N).1.acc.length
        = ((knnRun env N).1.acc.map QBond.point_idx).length :=
      (List.length_map _ _).symm
    omega

/-- Witness for C5 at the concrete ball environment used above
(`qidx = 0 < n = 1`), after two calls. -/
theorem claim5_witness :
    wBallEnv.qidx < wBallEnv.n ∧
    ((knnRun wBallEnv 2).2.length ≤ wBallEnv.num_neighbors ∧
     ((knnRun wBallEnv 2).2.map QBond.point_idx).Nodup ∧
     (wBallEnv.exclude_ii = true → (knnRun wBallEnv 2).2.length ≤ wBallEnv.n - 1)) :=
  ⟨by decide, claim5_knn_at_most_k wBallEnv (by decide) 2⟩

end Freud
